import Mathlib

/-!
Verification development for the rust-fast crate (TritonDataCenter/rust-fast),
a Rust implementation of the Joyent Fast RPC protocol.

The development is a shallow embedding of the crate's source:

* `src/protocol.rs` — message types, the byte-level codec (`encode_msg`,
  `FastMessage::parse` and its helpers), the streaming decoder
  (`FastRpc::decode`) and the message-id allocator (`FastMessageId`);
* `src/client.rs` — `receive` and `parse_and_handle_messages`;
* `src/server.rs` — `respond`.

Byte buffers are modelled as `List Nat` (each element a byte value).  The
JSON payload layer (the crate uses `serde_json`) is modelled by an explicit
JSON value type `Fast.Json` with a compact serializer mirroring
`serde_json::to_string` and a parser mirroring `serde_json::from_str`.
Modelling decisions for the JSON library layer:

* numbers are restricted to unsigned integers (the payloads the crate
  itself constructs only use those; floats are outside the model);
* strings are byte sequences; the serializer escapes `0x22` and `0x5C`
  and emits all other bytes verbatim, and the parser accepts any byte
  `≥ 0x20` verbatim plus the standard two-character escapes (the
  `\uXXXX` escape form and the UTF-8 validity check of
  `str::from_utf8` are outside the model, and the UTF-8 error is merged
  with the JSON error, which no modelled code distinguishes);
* objects are association lists in textual order; `serde_json`'s map
  iteration order is abstracted as the stored order, and struct
  deserialization looks fields up by key, ignoring unknown fields, as
  the derived `Deserialize` instances do;
* the parser skips JSON whitespace between tokens, as `serde_json` does.

Statefulness (the `BytesMut` buffer, the `AtomicUsize` id counter, the
read loop over a TCP stream) is modelled by explicit state passing; the
stream feeding `receive` is modelled as a list of chunks, and the
response callbacks are modelled as explicit functions together with the
trace of messages they are invoked on.  Rust panics (out-of-bounds
indexing / slicing, `Option::unwrap`) are modelled by `Option.none`
results or a distinguished sentinel, so that panic-freedom is provable
rather than assumed.
-/

set_option maxRecDepth 40000

deriving instance DecidableEq for Except

namespace Fast

/-- Json value type modelling `serde_json::Value` as restricted above.
Strings and object keys are byte lists. -/
inductive Json where
  | null
  | bool (b : Bool)
  | num (n : Nat)
  | str (s : List Nat)
  | arr (elems : List Json)
  | obj (fields : List (List Nat × Json))

/-- Decimal digit bytes of `n`, most significant first; the first argument
is recursion fuel (any fuel `≥ n` gives the true digits). -/
def natDigitsAux : Nat → Nat → List Nat
  | 0, n => [48 + n % 10]
  | fuel+1, n => if n < 10 then [48 + n] else natDigitsAux fuel (n / 10) ++ [48 + n % 10]

/-- Decimal digit bytes of `n`, most significant first, as emitted by the
JSON serializer for an unsigned integer. -/
def natDigits (n : Nat) : List Nat := natDigitsAux n n

/-- Serialization of one string byte: `0x22` and `0x5C` are escaped with a
backslash, everything else is emitted verbatim. -/
def escapeByte (c : Nat) : List Nat :=
  if c = 34 then [92, 34] else if c = 92 then [92, 92] else [c]

/-- Serialization of the bytes of a JSON string (without the surrounding
quotes). -/
def escapeStr : List Nat → List Nat
  | [] => []
  | c :: s => escapeByte c ++ escapeStr s

mutual
/-- Compact serialization of a Json value, modelling `serde_json::to_string`. -/
def Json.ser : Json → List Nat
  | .null => [110, 117, 108, 108]
  | .bool true => [116, 114, 117, 101]
  | .bool false => [102, 97, 108, 115, 101]
  | .num n => natDigits n
  | .str s => 34 :: escapeStr s ++ [34]
  | .arr es => 91 :: Json.serItems es ++ [93]
  | .obj fs => 123 :: Json.serFields fs ++ [125]

/-- Comma-separated serialization of array elements. -/
def Json.serItems : List Json → List Nat
  | [] => []
  | [e] => Json.ser e
  | e :: rest => Json.ser e ++ 44 :: Json.serItems rest

/-- Comma-separated serialization of object fields (`"key":value`). -/
def Json.serFields : List (List Nat × Json) → List Nat
  | [] => []
  | [(k, v)] => 34 :: escapeStr k ++ 34 :: 58 :: Json.ser v
  | (k, v) :: rest => 34 :: escapeStr k ++ 34 :: 58 :: Json.ser v ++ 44 :: Json.serFields rest
end

/-- Well-formedness of the bytes of a JSON string for the modelled
serializer/parser pair: no control bytes and in byte range. -/
def strWFb (s : List Nat) : Bool :=
  s.all fun c => decide (32 ≤ c) && decide (c < 256)

mutual
/-- Well-formedness of a Json value: string contents are in range. -/
def Json.wfb : Json → Bool
  | .null => true
  | .bool _ => true
  | .num _ => true
  | .str s => strWFb s
  | .arr es => Json.wfbList es
  | .obj fs => Json.wfbFields fs

/-- Well-formedness of a list of Json values. -/
def Json.wfbList : List Json → Bool
  | [] => true
  | e :: es => Json.wfb e && Json.wfbList es

/-- Well-formedness of object fields. -/
def Json.wfbFields : List (List Nat × Json) → Bool
  | [] => true
  | (k, v) :: fs => strWFb k && Json.wfb v && Json.wfbFields fs
end

mutual
/-- Boolean equality on Json values. -/
def Json.beq : Json → Json → Bool
  | .null, .null => true
  | .bool a, .bool b => a == b
  | .num a, .num b => a == b
  | .str a, .str b => a == b
  | .arr as, .arr bs => Json.beqList as bs
  | .obj as, .obj bs => Json.beqFields as bs
  | _, _ => false

/-- Boolean equality on lists of Json values. -/
def Json.beqList : List Json → List Json → Bool
  | [], [] => true
  | a :: as, b :: bs => Json.beq a b && Json.beqList as bs
  | _, _ => false

/-- Boolean equality on object field lists. -/
def Json.beqFields : List (List Nat × Json) → List (List Nat × Json) → Bool
  | [], [] => true
  | (k, v) :: as, (l, w) :: bs => k == l && Json.beq v w && Json.beqFields as bs
  | _, _ => false
end

theorem Json.beqList_iff (as : List Json)
    (ih : ∀ a ∈ as, ∀ b, (Json.beq a b = true ↔ a = b)) :
    ∀ bs, (Json.beqList as bs = true ↔ as = bs) := by
  induction as with
  | nil => intro bs; cases bs <;> simp [Json.beqList]
  | cons a as ihl =>
    intro bs
    cases bs with
    | nil => simp [Json.beqList]
    | cons b bs =>
      have h1 := ih a (by simp)
      have h2 := ihl (fun x hx b => ih x (by simp [hx]) b) bs
      simp [Json.beqList, h1, h2]

theorem Json.beqFields_iff (as : List (List Nat × Json))
    (ih : ∀ kv ∈ as, ∀ b, (Json.beq kv.2 b = true ↔ kv.2 = b)) :
    ∀ bs, (Json.beqFields as bs = true ↔ as = bs) := by
  induction as with
  | nil => intro bs; cases bs <;> simp [Json.beqFields]
  | cons kv as ihl =>
    intro bs
    obtain ⟨k, v⟩ := kv
    cases bs with
    | nil => simp [Json.beqFields]
    | cons lw bs =>
      obtain ⟨l, w⟩ := lw
      have h1 := ih (k, v) (by simp)
      have h2 := ihl (fun x hx b => ih x (by simp [hx]) b) bs
      simp only [Json.beqFields, Bool.and_eq_true, beq_iff_eq, List.cons.injEq, Prod.mk.injEq]
      rw [h1 w, h2]

theorem Json.beq_iff : ∀ (a b : Json), (Json.beq a b = true ↔ a = b)
  | .null, b => by cases b <;> simp [Json.beq]
  | .bool x, b => by cases b <;> simp [Json.beq]
  | .num x, b => by cases b <;> simp [Json.beq]
  | .str x, b => by cases b <;> simp [Json.beq]
  | .arr as, b => by
    cases b <;> simp [Json.beq]
    exact Json.beqList_iff as (fun a ha b => Json.beq_iff a b) _
  | .obj as, b => by
    cases b <;> simp [Json.beq]
    exact Json.beqFields_iff as (fun kv hkv b => Json.beq_iff kv.2 b) _
termination_by a => sizeOf a
decreasing_by
  · simp_wf
    have := List.sizeOf_lt_of_mem ha
    omega
  · simp_wf
    have h1 := List.sizeOf_lt_of_mem hkv
    obtain ⟨k, v⟩ := kv
    simp at h1 ⊢
    omega

instance : DecidableEq Json := fun a b =>
  decidable_of_iff (Json.beq a b = true) (Json.beq_iff a b)

/-- Whitespace bytes as accepted by the JSON grammar. -/
def isWs (c : Nat) : Bool := c = 32 || c = 9 || c = 10 || c = 13

/-- Decimal digit bytes. -/
def isDigit (c : Nat) : Bool := 48 ≤ c && c ≤ 57

/-- Drop leading JSON whitespace. -/
def skipWs : List Nat → List Nat
  | [] => []
  | c :: rest => if isWs c then skipWs rest else c :: rest

/-- Expect the bytes `pat` at the head of `buf`, returning the remainder. -/
def expectBytes : List Nat → List Nat → Option (List Nat)
  | [], buf => some buf
  | _ :: _, [] => none
  | p :: ps, c :: rest => if p = c then expectBytes ps rest else none

/-- Interpretation of the character after a backslash in a JSON string. -/
def unescapeByte (c : Nat) : Option Nat :=
  if c = 34 then some 34
  else if c = 92 then some 92
  else if c = 47 then some 47
  else if c = 98 then some 8
  else if c = 102 then some 12
  else if c = 110 then some 10
  else if c = 114 then some 13
  else if c = 116 then some 9
  else none

/-- Parse the body of a JSON string (after the opening quote), returning the
string bytes and the remainder after the closing quote. -/
def parseStrBytes : List Nat → Option (List Nat × List Nat)
  | [] => none
  | c :: rest =>
    if c = 34 then some ([], rest)
    else if c = 92 then
      match rest with
      | [] => none
      | e :: rest2 =>
        match unescapeByte e with
        | none => none
        | some u => (parseStrBytes rest2).map (fun p => (u :: p.1, p.2))
    else if 32 ≤ c then (parseStrBytes rest).map (fun p => (c :: p.1, p.2))
    else none

/-- Value of a list of decimal digit bytes, most significant first. -/
def digitsToNat (ds : List Nat) : Nat := ds.foldl (fun a c => a * 10 + (c - 48)) 0

/-- Parse a run of decimal digits at the head of `buf`. -/
def parseNum (buf : List Nat) : Option (Nat × List Nat) :=
  let ds := buf.takeWhile isDigit
  if ds.isEmpty then none else some (digitsToNat ds, buf.dropWhile isDigit)

mutual
/-- Fuel-indexed JSON value parser, modelling the grammar accepted by
`serde_json::from_str` under the restrictions documented at the top of this
file.  Any fuel larger than the nesting size of the value suffices. -/
def parseVal : Nat → List Nat → Option (Json × List Nat)
  | 0, _ => none
  | fuel+1, buf =>
    match skipWs buf with
    | [] => none
    | c :: rest =>
      if c = 110 then (expectBytes [117, 108, 108] rest).map (fun r => (Json.null, r))
      else if c = 116 then (expectBytes [114, 117, 101] rest).map (fun r => (Json.bool true, r))
      else if c = 102 then (expectBytes [97, 108, 115, 101] rest).map (fun r => (Json.bool false, r))
      else if c = 34 then (parseStrBytes rest).map (fun p => (Json.str p.1, p.2))
      else if c = 91 then
        let r := skipWs rest
        if r.head? = some 93 then some (Json.arr [], r.tail)
        else (parseItems fuel r).map (fun p => (Json.arr p.1, p.2))
      else if c = 123 then
        let r := skipWs rest
        if r.head? = some 125 then some (Json.obj [], r.tail)
        else (parseFields fuel r).map (fun p => (Json.obj p.1, p.2))
      else if isDigit c then (parseNum (c :: rest)).map (fun p => (Json.num p.1, p.2))
      else none

/-- Parse one or more comma-separated array elements followed by `]`. -/
def parseItems : Nat → List Nat → Option (List Json × List Nat)
  | 0, _ => none
  | fuel+1, buf =>
    match parseVal fuel buf with
    | none => none
    | some (v, rest) =>
      let r := skipWs rest
      if r.head? = some 44 then (parseItems fuel r.tail).map (fun p => (v :: p.1, p.2))
      else if r.head? = some 93 then some ([v], r.tail)
      else none

/-- Parse one or more comma-separated object fields followed by a closing
brace. -/
def parseFields : Nat → List Nat → Option (List (List Nat × Json) × List Nat)
  | 0, _ => none
  | fuel+1, buf =>
    match skipWs buf with
    | [] => none
    | c :: rest =>
      if c = 34 then
        match parseStrBytes rest with
        | none => none
        | some (k, rest2) =>
          let r := skipWs rest2
          if r.head? = some 58 then
            match parseVal fuel r.tail with
            | none => none
            | some (v, rest3) =>
              let r2 := skipWs rest3
              if r2.head? = some 44 then
                (parseFields fuel r2.tail).map (fun p => ((k, v) :: p.1, p.2))
              else if r2.head? = some 125 then some ([(k, v)], r2.tail)
              else none
          else none
      else none
end

/-- Parse a complete JSON document: one value with only trailing whitespace
allowed afterwards, modelling `serde_json::from_str`. -/
def jsonParse (bytes : List Nat) : Option Json :=
  match parseVal (bytes.length + 1) bytes with
  | some (v, rest) => if (skipWs rest).isEmpty then some v else none
  | none => none

mutual
/-- Nesting size of a Json value: a lower bound for the parsing fuel. -/
def Json.size : Json → Nat
  | .null => 1
  | .bool _ => 1
  | .num _ => 1
  | .str _ => 1
  | .arr es => 1 + Json.sizeItems es
  | .obj fs => 1 + Json.sizeFields fs

/-- Fuel lower bound for `parseItems`. -/
def Json.sizeItems : List Json → Nat
  | [] => 0
  | e :: es => 1 + Json.size e + Json.sizeItems es

/-- Fuel lower bound for `parseFields`. -/
def Json.sizeFields : List (List Nat × Json) → Nat
  | [] => 0
  | (_, v) :: fs => 1 + Json.size v + Json.sizeFields fs
end

/-! CRC-16/ARC, as computed by `crc16::State::<ARC>::calculate`: reflected
polynomial `0xA001`, initial value 0, no final xor. -/

/-- One LFSR step of the reflected CRC-16/ARC register. -/
def crcStep (s : Nat) : Nat := if s % 2 = 1 then (s / 2) ^^^ 40961 else s / 2

/-- Fold one message byte into the CRC register. -/
def crcByte (s b : Nat) : Nat := crcStep^[8] (s ^^^ b)

/-- CRC-16/ARC of a byte list. -/
def crc16 (l : List Nat) : Nat := l.foldl crcByte 0

/-! Byte-level utilities: big-endian 32-bit fields and checked slicing.
`slice?` returns `none` exactly when the corresponding Rust range indexing
`&buf[start..stop]` would panic. -/

/-- Big-endian bytes of the low 32 bits of `n`, as written by `put_u32_be`
(which takes a `u32`; the `% 256` projections make the truncating `as u32`
casts in the source explicit). -/
def be32 (n : Nat) : List Nat := [n / 2 ^ 24 % 256, n / 2 ^ 16 % 256, n / 2 ^ 8 % 256, n % 256]

/-- Value of a 4-byte big-endian slice, as read by `BigEndian::read_u32`. -/
def readBe32 : List Nat → Nat
  | [a, b, c, d] => ((a * 256 + b) * 256 + c) * 256 + d
  | _ => 0

/-- Checked slice `buf[start..stop]`; `none` models the Rust panic on an
out-of-range slice. -/
def slice? (buf : List Nat) (start stop : Nat) : Option (List Nat) :=
  if start ≤ stop ∧ stop ≤ buf.length then some ((buf.drop start).take (stop - start)) else none

/-! Protocol data model, from `src/protocol.rs`. -/

/-- Field offsets of the Fast message header (`FP_OFF_*`). -/
def FP_OFF_TYPE : Nat := 1
def FP_OFF_STATUS : Nat := 2
def FP_OFF_MSGID : Nat := 3
def FP_OFF_CRC : Nat := 7
def FP_OFF_DATALEN : Nat := 11
def FP_OFF_DATA : Nat := 15

/-- Size of a Fast message header (`FP_HEADER_SZ = FP_OFF_DATA`). -/
def FP_HEADER_SZ : Nat := FP_OFF_DATA

/-- Version byte written by the encoder:
`FP_VERSION_CURRENT = FP_VERSION_2 = 0x2`. -/
def FP_VERSION_2 : Nat := 2
def FP_VERSION_CURRENT : Nat := FP_VERSION_2

/-- Type field of a Fast message (`FastMessageType`); only `Json = 1`. -/
inductive FastMessageType where
  | Json
deriving DecidableEq

/-- Conversion of a type to its wire byte (`ToPrimitive`). -/
def FastMessageType.to_u8 : FastMessageType → Nat
  | .Json => 1

/-- Conversion of a wire byte to a type (`FromPrimitive`). -/
def FastMessageType.from_u8 : Nat → Option FastMessageType
  | 1 => some .Json
  | _ => none

/-- Status field of a Fast message (`FastMessageStatus`). -/
inductive FastMessageStatus where
  | Data
  | End
  | Error
deriving DecidableEq

/-- Conversion of a status to its wire byte (`ToPrimitive`). -/
def FastMessageStatus.to_u8 : FastMessageStatus → Nat
  | .Data => 1
  | .End => 2
  | .Error => 3

/-- Conversion of a wire byte to a status (`FromPrimitive`). -/
def FastMessageStatus.from_u8 : Nat → Option FastMessageStatus
  | 1 => some .Data
  | 2 => some .End
  | 3 => some .Error
  | _ => none

/-- Header of a Fast message (`FastMessageHeader`). -/
structure FastMessageHeader where
  msg_type : FastMessageType
  status : FastMessageStatus
  id : Nat
  crc : Nat
  data_len : Nat
deriving DecidableEq

/-- Metadata of a Fast message payload (`FastMessageMetaData`): a creation
timestamp and the RPC method name.  The name is a byte string. -/
structure FastMessageMetaData where
  uts : Nat
  name : List Nat
deriving DecidableEq

/-- Constructor `FastMessageMetaData::new`; the source reads the wall clock
for `uts`, which the model takes as an explicit argument. -/
def FastMessageMetaData.new (uts : Nat) (n : List Nat) : FastMessageMetaData :=
  ⟨uts, n⟩

/-- Payload of a Fast message (`FastMessageData`). -/
structure FastMessageData where
  m : FastMessageMetaData
  d : Json
deriving DecidableEq

/-- Constructor `FastMessageData::new` (clock explicit, as above). -/
def FastMessageData.new (uts : Nat) (n : List Nat) (d : Json) : FastMessageData :=
  ⟨FastMessageMetaData.new uts n, d⟩

/-- A Fast message (`FastMessage`). -/
structure FastMessage where
  msg_type : FastMessageType
  status : FastMessageStatus
  id : Nat
  msg_size : Option Nat
  data : FastMessageData
deriving DecidableEq

/-- Constructor `FastMessage::data`. -/
def FastMessage.data_msg (msg_id : Nat) (data : FastMessageData) : FastMessage :=
  { msg_type := .Json, status := .Data, id := msg_id, msg_size := none, data := data }

/-- Constructor `FastMessage::end`: an END message whose payload has the
method name and an empty array. -/
def FastMessage.end_msg (uts : Nat) (msg_id : Nat) (method : List Nat) : FastMessage :=
  { msg_type := .Json, status := .End, id := msg_id, msg_size := none,
    data := FastMessageData.new uts method (Json.arr []) }

/-- Constructor `FastMessage::error`. -/
def FastMessage.error_msg (msg_id : Nat) (data : FastMessageData) : FastMessage :=
  { msg_type := .Json, status := .Error, id := msg_id, msg_size := none, data := data }

/-- Parse error type (`FastParseError`).  `IOError` carries the message of
the wrapped `std::io::Error`. -/
inductive FastParseError where
  | NotEnoughBytes (n : Nat)
  | IOError (msg : String)
deriving DecidableEq

/-- Error message for an unrecognized type byte. -/
def typeErrMsg : String := "Failed to parse message type"

/-- Error message for an unrecognized status byte. -/
def statusErrMsg : String := "Failed to parse message status"

/-- Error message for a payload checksum mismatch. -/
def crcErrMsg : String := "Calculated CRC does not match the provided CRC"

/-- Error message for a payload that is not valid JSON (the model merges the
UTF-8 validity error of the source into this case, as documented above). -/
def jsonErrMsg : String := "Failed to parse data payload as JSON"

/-- JSON view of the metadata struct, in `serde` field order. -/
def metaToJson (m : FastMessageMetaData) : Json :=
  Json.obj [([117, 116, 115], Json.num m.uts), ([110, 97, 109, 101], Json.str m.name)]

/-- JSON view of the payload struct, in `serde` field order
(`m` then `d`). -/
def dataToJson (d : FastMessageData) : Json :=
  Json.obj [([109], metaToJson d.m), ([100], d.d)]

/-- Serialization of a payload, modelling `serde_json::to_string(&msg.data)`. -/
def serData (d : FastMessageData) : List Nat := Json.ser (dataToJson d)

/-- Lookup of an object field by key (first occurrence). -/
def lookupField : List (List Nat × Json) → List Nat → Option Json
  | [], _ => none
  | (k, v) :: rest, key => if k = key then some v else lookupField rest key

/-- Deserialization of the metadata struct from a JSON value: fields looked
up by name in any order, unknown fields ignored, `uts` bounded by `u64`,
modelling the derived `Deserialize` of `FastMessageMetaData`. -/
def jsonToMeta : Json → Option FastMessageMetaData
  | Json.obj fs =>
    match lookupField fs [117, 116, 115], lookupField fs [110, 97, 109, 101] with
    | some (Json.num uts), some (Json.str name) =>
      if uts < 2 ^ 64 then some ⟨uts, name⟩ else none
    | _, _ => none
  | _ => none

/-- Deserialization of the payload struct from a JSON value, modelling the
derived `Deserialize` of `FastMessageData`. -/
def jsonToData : Json → Option FastMessageData
  | Json.obj fs =>
    match lookupField fs [109] with
    | some jm =>
      match jsonToMeta jm with
      | some m =>
        match lookupField fs [100] with
        | some d => some ⟨m, d⟩
        | none => none
      | none => none
    | none => none
  | _ => none

/-! The codec, from `impl FastMessage` in `src/protocol.rs`. -/

/-- Check that the buffer holds at least a header
(`FastMessage::check_buffer_size`). -/
def check_buffer_size (buf : List Nat) : Except FastParseError Unit :=
  if buf.length < FP_HEADER_SZ then .error (.NotEnoughBytes buf.length) else .ok ()

/-- Parse the fixed-size header (`FastMessage::parse_header`).  The outer
`Option` models the panics of the unchecked indexing in the source;
`FastMessage::parse` only calls this after `check_buffer_size`. -/
def parse_header (buf : List Nat) : Option (Except FastParseError FastMessageHeader) :=
  match buf[FP_OFF_TYPE]? with
  | none => none
  | some tb =>
    match FastMessageType.from_u8 tb with
    | none => some (.error (.IOError typeErrMsg))
    | some t =>
      match buf[FP_OFF_STATUS]? with
      | none => none
      | some sb =>
        match FastMessageStatus.from_u8 sb with
        | none => some (.error (.IOError statusErrMsg))
        | some st =>
          match slice? buf FP_OFF_MSGID (FP_OFF_MSGID + 4) with
          | none => none
          | some idb =>
            match slice? buf FP_OFF_CRC (FP_OFF_CRC + 4) with
            | none => none
            | some crcb =>
              match slice? buf FP_OFF_DATALEN (FP_OFF_DATALEN + 4) with
              | none => none
              | some lenb =>
                some (.ok ⟨t, st, readBe32 idb, readBe32 crcb, readBe32 lenb⟩)

/-- Check that the buffer holds the full payload
(`FastMessage::validate_data_length`). -/
def validate_data_length (buf : List Nat) (data_length : Nat) : Except FastParseError Unit :=
  if buf.length < FP_HEADER_SZ + data_length then .error (.NotEnoughBytes buf.length)
  else .ok ()

/-- Compare the payload checksum with the header field
(`FastMessage::validate_crc`). -/
def validate_crc (data_buf : List Nat) (crc : Nat) : Except FastParseError Unit :=
  if crc ≠ crc16 data_buf then .error (.IOError crcErrMsg) else .ok ()

/-- Decode the payload bytes as JSON (`FastMessage::parse_data`). -/
def parse_data (data_buf : List Nat) : Except FastParseError FastMessageData :=
  match jsonParse data_buf with
  | some v =>
    match jsonToData v with
    | some d => .ok d
    | none => .error (.IOError jsonErrMsg)
  | none => .error (.IOError jsonErrMsg)

/-- Parse a byte buffer into a `FastMessage` (`FastMessage::parse`).  The
outer `Option` models panics of unchecked indexing, which the claim C10
proves unreachable. -/
def FastMessage.parse (buf : List Nat) : Option (Except FastParseError FastMessage) :=
  match check_buffer_size buf with
  | .error e => some (.error e)
  | .ok _ =>
    match parse_header buf with
    | none => none
    | some (.error e) => some (.error e)
    | some (.ok header) =>
      match validate_data_length buf header.data_len with
      | .error e => some (.error e)
      | .ok _ =>
        match slice? buf FP_OFF_DATA (FP_OFF_DATA + header.data_len) with
        | none => none
        | some raw_data =>
          match validate_crc raw_data header.crc with
          | .error e => some (.error e)
          | .ok _ =>
            match parse_data raw_data with
            | .error e => some (.error e)
            | .ok data =>
              let msg_size : Option Nat :=
                match header.status with
                | .End => none
                | _ => some (FP_OFF_DATA + header.data_len)
              some (.ok ⟨header.msg_type, header.status, header.id, msg_size, data⟩)

/-- Encode a `FastMessage` into bytes (`encode_msg`).  The source returns
`Err` only when `to_u8` fails, which cannot happen for the closed enums, so
the model is total; the bytes are appended to the caller's buffer in the
source, modelled by returning the appended bytes. -/
def encode_msg (msg : FastMessage) : List Nat :=
  let data_str := serData msg.data
  FP_VERSION_CURRENT :: msg.msg_type.to_u8 :: msg.status.to_u8 ::
    (be32 msg.id ++ be32 (crc16 data_str) ++ be32 data_str.length ++ data_str)

/-! The streaming decoder, from `impl Decoder for FastRpc` in
`src/protocol.rs`. -/

/-- Display form of a `FastParseError` after conversion to `io::Error`
(`impl From<FastParseError> for Error`). -/
def fastParseErrorMsg : FastParseError → String
  | .NotEnoughBytes _ => "Unable to parse message: not enough bytes"
  | .IOError e => e

/-- Error message produced by `FastRpc::decode` for a fatal parse error. -/
def decodeErrMsg (e : FastParseError) : String :=
  "failed to parse Fast request: " ++ fastParseErrorMsg e

/-- Checked `BytesMut::advance`; `none` models the panic when advancing past
the end of the buffer. -/
def advance? (buf : List Nat) (n : Nat) : Option (List Nat) :=
  if n ≤ buf.length then some (buf.drop n) else none

/-- Loop body of `FastRpc::decode`.  The first argument is recursion fuel;
every iteration consumes at least `FP_HEADER_SZ` bytes, so any fuel larger
than the buffer length suffices.  Note the advance distance is
`FP_HEADER_SZ` plus the length of the re-serialized payload of the parsed
message (`serde_json::to_string(&parsed_msg.data)`), not the on-wire
`data_length`.  Returns the decoded messages in order and the remaining
buffer; the outer `Option` models panics. -/
def decodeCore : Nat → List Nat → Option (Except String (List FastMessage × List Nat))
  | 0, _ => none
  | fuel+1, buf =>
    if buf.isEmpty then some (.ok ([], buf))
    else
      match FastMessage.parse buf with
      | none => none
      | some (.ok parsed_msg) =>
        let data_len := (serData parsed_msg.data).length
        match advance? buf (FP_HEADER_SZ + data_len) with
        | none => none
        | some buf2 =>
          match decodeCore fuel buf2 with
          | none => none
          | some (.error e) => some (.error e)
          | some (.ok (msgs, rest)) => some (.ok (parsed_msg :: msgs, rest))
      | some (.error (.NotEnoughBytes _)) => some (.ok ([], buf))
      | some (.error err) => some (.error (decodeErrMsg err))

/-- The decoder `FastRpc::decode`: splits a buffer into complete messages,
returning `Ok(None)` when no complete message is available yet, and the
remaining bytes of the buffer. -/
def FastRpc.decode (buf : List Nat) :
    Option (Except String (Option (List FastMessage) × List Nat)) :=
  match decodeCore (buf.length + 1) buf with
  | none => none
  | some (.error e) => some (.error e)
  | some (.ok (msgs, rest)) =>
    some (.ok ((if msgs.isEmpty then none else some msgs), rest))

/-! The message id allocator, from `FastMessageId` in `src/protocol.rs`.
The state is the `AtomicUsize` counter; the model assumes the 64-bit
`usize` of the crate's supported targets. -/

/-- Value of `usize::max_value()` on a 64-bit target. -/
def usizeMax : Nat := 2 ^ 64 - 1

/-- Initial allocator state (`FastMessageId::new`). -/
def FastMessageId.new : Nat := 0

/-- One call of `Iterator::next` on a `FastMessageId`: returns the current
value and the advanced state `(current + 1) % (usize::max_value() - 1)`. -/
def FastMessageId.next (s : Nat) : Nat × Nat := (s, (s + 1) % (usizeMax - 1))

/-- Allocator state after `n` calls to `next` starting from a fresh
allocator; since `next` returns the state it was called in, this is also
the id returned by call number `n` (counting from 0). -/
def FastMessageId.idAfter : Nat → Nat
  | 0 => FastMessageId.new
  | n+1 => (FastMessageId.next (FastMessageId.idAfter n)).2

/-! The client receive path, from `src/client.rs`.  The response callback is
modelled as a function into `Except String Unit` (`Result<(), Error>` with
the error's display string); each modelled loop also returns the trace of
messages the callback was invoked on, in order. -/

/-- Buffer instruction returned by `parse_and_handle_messages`
(`BufferAction`). -/
inductive BufferAction where
  | Keep
  | Trim (n : Nat)
  | Done
deriving DecidableEq

/-- Sentinel for control paths that panic in Rust
(`Option::unwrap` on `None`, unchecked indexing). -/
def panicMsg : String := "model: panic"

/-- Error message of `receive` on a zero-byte read. -/
def eofMsg : String := "Received EOF (0 bytes) from server"

/-- Server-reported error payload (`FastMessageServerError`). -/
structure FastMessageServerError where
  name : List Nat
  message : List Nat
deriving DecidableEq

/-- Deserialization of a `FastMessageServerError` from the `d` payload of an
ERROR message (`serde_json::from_value`), looking fields up by name. -/
def jsonToServerError : Json → Option FastMessageServerError
  | Json.obj fs =>
    match lookupField fs [110, 97, 109, 101], lookupField fs [109, 101, 115, 115, 97, 103, 101] with
    | some (Json.str n), some (Json.str m) => some ⟨n, m⟩
    | _, _ => none
  | _ => none

/-- Bytes of an ASCII string literal, for building constant byte strings. -/
def strBytes (s : String) : List Nat := s.data.map Char.toNat

/-- Rendering of a byte string for an error display message. -/
def bytesStr (l : List Nat) : String := String.mk (l.map Char.ofNat)

/-- Fallback error used when an ERROR payload does not deserialize
(`unspecified_error`). -/
def unspecified_error : FastMessageServerError :=
  ⟨strBytes "UnspecifiedServerError", strBytes "Server reported unspecified error."⟩

/-- Display form of a `FastMessageServerError` converted to `io::Error`
(`format("{}: {}", name, message)` in the source, which contains no brace
characters in the rendered output). -/
def serverErrorStr (e : FastMessageServerError) : String :=
  bytesStr e.name ++ ": " ++ bytesStr e.message

/-- Result computed by the ERROR-status arm of `parse_and_handle_messages`:
decode the payload as a server error, falling back to
`unspecified_error`, and fail with its display form. -/
def serverErrorResult (d : Json) : Except String BufferAction :=
  match jsonToServerError d with
  | some e => .error (serverErrorStr e)
  | none => .error (serverErrorStr unspecified_error)

/-- Loop of `parse_and_handle_messages` over `read_buf` from byte offset
`offset`, with `result` the accumulated buffer action.  The first argument
is fuel; every iteration advances the offset by at least `FP_HEADER_SZ`, so
any fuel larger than the buffer length suffices.  Returns the final result
and the trace of messages passed to the handler. -/
def pahm (h : FastMessage → Except String Unit) :
    Nat → List Nat → Nat → Except String BufferAction →
    Except String BufferAction × List FastMessage
  | 0, _, _, result => (result, [])
  | fuel+1, read_buf, offset, result =>
    match FastMessage.parse (read_buf.drop offset) with
    | none => (.error panicMsg, [])
    | some (.error (.NotEnoughBytes _)) => (result, [])
    | some (.error (.IOError e)) => (.error e, [])
    | some (.ok fm) =>
      if fm.status = FastMessageStatus.End then (.ok BufferAction.Done, [])
      else
        match fm.msg_size with
        | none => (.error panicMsg, [])
        | some sz =>
          let offset2 := offset + sz
          match fm.status with
          | FastMessageStatus.Error => (serverErrorResult fm.data.d, [])
          | _ =>
            match h fm with
            | .error e => (.error e, [fm])
            | .ok _ =>
              let r := pahm h fuel read_buf offset2 (.ok (BufferAction.Trim offset2))
              (r.1, fm :: r.2)

/-- Entry point of `parse_and_handle_messages`. -/
def parse_and_handle_messages (h : FastMessage → Except String Unit) (read_buf : List Nat) :
    Except String BufferAction × List FastMessage :=
  pahm h (read_buf.length + 1) read_buf 0 (.ok BufferAction.Keep)

/-- The `receive` loop of the client, with the TCP stream modelled as the
list of byte chunks successive reads return; an empty chunk models a
zero-byte read (EOF).  Returns `none` if the chunk list is exhausted before
the loop terminates (the real loop would block on the next read), otherwise
the result of `receive` together with the full callback trace. -/
def receiveLoop (h : FastMessage → Except String Unit) :
    List (List Nat) → List Nat → Nat → Except String Nat →
    Option (Except String Nat × List FastMessage)
  | [], _, _, _ => none
  | chunk :: restChunks, msg_buf, total, result =>
    if chunk.isEmpty then some (.error eofMsg, [])
    else
      let msg_buf2 := msg_buf ++ chunk
      let total2 := total + chunk.length
      let r := parse_and_handle_messages h msg_buf2
      match r.1 with
      | .ok BufferAction.Keep =>
        (receiveLoop h restChunks msg_buf2 total2 result).map (fun p => (p.1, r.2 ++ p.2))
      | .ok (BufferAction.Trim off) =>
        (receiveLoop h restChunks (msg_buf2.drop off) total2 (.ok total2)).map
          (fun p => (p.1, r.2 ++ p.2))
      | .ok BufferAction.Done => some (result, r.2)
      | .error e => some (.error e, r.2)

/-- The client `receive` function over a modelled stream of chunks. -/
def receive (h : FastMessage → Except String Unit) (chunks : List (List Nat)) :
    Option (Except String Nat × List FastMessage) :=
  receiveLoop h chunks [] 0 (.ok 0)

/-! The server response engine, from `respond` in `src/server.rs`.  The
handler is modelled as a function from the request message to either a list
of response messages or an error byte string (`err.to_string()`). -/

/-- The `d` payload of a synthesized ERROR frame:
`json!({name: FastError, message: err.to_string()})`.  The model keeps
object fields in the written order, as documented at the top of the file. -/
def fastErrorObj (err : List Nat) : Json :=
  Json.obj [([110, 97, 109, 101], Json.str (strBytes "FastError")),
    ([109, 101, 115, 115, 97, 103, 101], Json.str err)]

/-- The per-request responses appended by one iteration of the loop in
`respond`: on handler success the handler's messages followed by a
synthesized END frame; on handler error a single synthesized ERROR frame. -/
def respondOne (h : FastMessage → Except (List Nat) (List FastMessage)) (uts : Nat)
    (msg : FastMessage) : List FastMessage :=
  match h msg with
  | .ok response => response ++ [FastMessage.end_msg uts msg.id msg.data.m.name]
  | .error err =>
    [FastMessage.error_msg msg.id (FastMessageData.new uts msg.data.m.name (fastErrorObj err))]

/-- The server `respond` function: processes the decoded request messages in
order, accumulating the response frames, which the caller writes back on
the stream in this order.  The wall-clock timestamp used for synthesized
frames is the explicit `uts` argument. -/
def respond (h : FastMessage → Except (List Nat) (List FastMessage)) (uts : Nat) :
    List FastMessage → List FastMessage
  | [] => []
  | msg :: rest => respondOne h uts msg ++ respond h uts rest

/-! CRC-16/ARC facts.  The step map is linear over xor and injective on the
16-bit state space, so a single corrupted byte always changes the final
checksum. -/

theorem xor_pair_cancel (x y p : Nat) : (x ^^^ p) ^^^ (y ^^^ p) = x ^^^ y := by
  rw [Nat.xor_comm y p, Nat.xor_assoc, Nat.xor_cancel_left]

theorem crcStep_xor (a b : Nat) : crcStep (a ^^^ b) = crcStep a ^^^ crcStep b := by
  unfold crcStep
  have hm : (a ^^^ b) % 2 = (a + b) % 2 := Nat.xor_mod_two_eq
  rcases Nat.eq_zero_or_pos (a % 2) with ha | ha <;>
    rcases Nat.eq_zero_or_pos (b % 2) with hb | hb
  · have h1 : ¬ (a ^^^ b) % 2 = 1 := by omega
    have h2 : ¬ a % 2 = 1 := by omega
    have h3 : ¬ b % 2 = 1 := by omega
    rw [if_neg h1, if_neg h2, if_neg h3, Nat.xor_div_two]
  · have h1 : (a ^^^ b) % 2 = 1 := by omega
    have h2 : ¬ a % 2 = 1 := by omega
    have h3 : b % 2 = 1 := by omega
    rw [if_pos h1, if_neg h2, if_pos h3, Nat.xor_div_two, Nat.xor_assoc]
  · have h1 : (a ^^^ b) % 2 = 1 := by omega
    have h2 : a % 2 = 1 := by omega
    have h3 : ¬ b % 2 = 1 := by omega
    rw [if_pos h1, if_pos h2, if_neg h3, Nat.xor_div_two, Nat.xor_assoc,
      Nat.xor_comm (b / 2) 40961, ← Nat.xor_assoc]
  · have h1 : ¬ (a ^^^ b) % 2 = 1 := by omega
    have h2 : a % 2 = 1 := by omega
    have h3 : b % 2 = 1 := by omega
    rw [if_neg h1, if_pos h2, if_pos h3, Nat.xor_div_two, xor_pair_cancel]

theorem crcStep_iterate_xor (n a b : Nat) :
    crcStep^[n] (a ^^^ b) = crcStep^[n] a ^^^ crcStep^[n] b := by
  induction n generalizing a b with
  | zero => simp
  | succ n ih =>
    simp only [Function.iterate_succ_apply]
    rw [crcStep_xor, ih]

theorem crcStep_lt (s : Nat) (h : s < 2 ^ 16) : crcStep s < 2 ^ 16 := by
  unfold crcStep
  split
  · exact Nat.xor_lt_two_pow (by omega) (by norm_num)
  · omega

theorem crcStep_ne_zero (s : Nat) (h : s < 2 ^ 16) (hnz : s ≠ 0) : crcStep s ≠ 0 := by
  unfold crcStep
  by_cases h1 : s % 2 = 1
  · rw [if_pos h1]
    intro hc
    have h2 : s / 2 = 40961 := Nat.xor_eq_zero.mp hc
    omega
  · rw [if_neg h1]
    omega

theorem crcStep_iterate_ne_zero (n s : Nat) (h : s < 2 ^ 16) (hnz : s ≠ 0) :
    crcStep^[n] s ≠ 0 ∧ crcStep^[n] s < 2 ^ 16 := by
  induction n generalizing s with
  | zero => exact ⟨hnz, h⟩
  | succ n ih =>
    simp only [Function.iterate_succ_apply]
    exact ih _ (crcStep_lt s h) (crcStep_ne_zero s h hnz)

theorem crcByte_xor_crcByte (s t b : Nat) :
    crcByte s b ^^^ crcByte t b = crcStep^[8] (s ^^^ t) := by
  unfold crcByte
  rw [← crcStep_iterate_xor]
  congr 1
  rw [Nat.xor_comm t b, ← Nat.xor_assoc, Nat.xor_assoc s b b, Nat.xor_self, Nat.xor_zero]

theorem crcByte_xor_bytes (s a b : Nat) :
    crcByte s a ^^^ crcByte s b = crcStep^[8] (a ^^^ b) := by
  unfold crcByte
  rw [← crcStep_iterate_xor]
  congr 1
  rw [Nat.xor_comm s a, Nat.xor_comm s b, xor_pair_cancel]

theorem foldl_crcByte_xor (l : List Nat) (s t : Nat) :
    l.foldl crcByte s ^^^ l.foldl crcByte t = crcStep^[8 * l.length] (s ^^^ t) := by
  induction l generalizing s t with
  | nil => simp
  | cons b l ih =>
    simp only [List.foldl_cons, List.length_cons]
    rw [ih, crcByte_xor_crcByte, ← Function.iterate_add_apply]
    have harith : 8 * (l.length + 1) = 8 * l.length + 8 := by ring
    rw [harith]

/-- Changing one byte of a message always changes its CRC-16/ARC, provided
the byte difference is a nonzero 16-bit value (in particular any single-bit
flip within a byte). -/
theorem crc16_change_byte_ne (pre suf : List Nat) (b d : Nat) (hd0 : d ≠ 0)
    (hdlt : d < 2 ^ 16) :
    crc16 (pre ++ (b ^^^ d) :: suf) ≠ crc16 (pre ++ b :: suf) := by
  intro hc
  have hxz : crc16 (pre ++ (b ^^^ d) :: suf) ^^^ crc16 (pre ++ b :: suf) = 0 := by
    rw [hc, Nat.xor_self]
  unfold crc16 at hxz
  rw [List.foldl_append, List.foldl_append] at hxz
  simp only [List.foldl_cons] at hxz
  set s := List.foldl crcByte 0 pre
  rw [foldl_crcByte_xor, crcByte_xor_bytes] at hxz
  rw [← Function.iterate_add_apply] at hxz
  have hdiff : (b ^^^ d) ^^^ b = d := by
    rw [Nat.xor_comm b d, Nat.xor_assoc, Nat.xor_self, Nat.xor_zero]
  rw [hdiff] at hxz
  exact (crcStep_iterate_ne_zero _ d hdlt hd0).1 hxz

theorem crcByte_lt (s b : Nat) (hs : s < 2 ^ 16) (hb : b < 256) : crcByte s b < 2 ^ 16 := by
  unfold crcByte
  have hx : s ^^^ b < 2 ^ 16 := Nat.xor_lt_two_pow hs (by omega)
  clear hs hb
  generalize s ^^^ b = t at hx
  have : ∀ n u, u < 2 ^ 16 → crcStep^[n] u < 2 ^ 16 := by
    intro n
    induction n with
    | zero => intro u hu; simpa using hu
    | succ n ih =>
      intro u hu
      simp only [Function.iterate_succ_apply]
      exact ih _ (crcStep_lt u hu)
  exact this 8 t hx

/-- The CRC of a byte list fits in 16 bits. -/
theorem crc16_lt (l : List Nat) (hl : ∀ b ∈ l, b < 256) : crc16 l < 2 ^ 16 := by
  unfold crc16
  have : ∀ s, s < 2 ^ 16 → ∀ l2 : List Nat, (∀ b ∈ l2, b < 256) →
      List.foldl crcByte s l2 < 2 ^ 16 := by
    intro s hs l2
    induction l2 generalizing s with
    | nil => intro _; simpa using hs
    | cons b l2 ih =>
      intro hmem
      simp only [List.foldl_cons]
      exact ih _ (crcByte_lt s b hs (hmem b (by simp))) (fun x hx => hmem x (by simp [hx]))
  exact this 0 (by norm_num) l hl

/-! Decimal digit printing and parsing. -/

theorem natDigitsAux_digits (fuel n : Nat) :
    ∀ c ∈ natDigitsAux fuel n, 48 ≤ c ∧ c ≤ 57 := by
  induction fuel generalizing n with
  | zero =>
    intro c hc
    simp only [natDigitsAux, List.mem_singleton] at hc
    subst hc
    have := Nat.mod_lt n (y := 10) (by norm_num)
    omega
  | succ fuel ih =>
    intro c hc
    simp only [natDigitsAux] at hc
    split at hc
    · simp only [List.mem_singleton] at hc
      omega
    · rw [List.mem_append] at hc
      rcases hc with hc | hc
      · exact ih _ c hc
      · simp only [List.mem_singleton] at hc
        have := Nat.mod_lt n (y := 10) (by norm_num)
        omega

theorem natDigits_digits (n : Nat) : ∀ c ∈ natDigits n, 48 ≤ c ∧ c ≤ 57 :=
  natDigitsAux_digits n n

theorem natDigits_ne_nil (n : Nat) : natDigits n ≠ [] := by
  unfold natDigits
  cases n with
  | zero => simp [natDigitsAux]
  | succ m =>
    simp only [natDigitsAux]
    split
    · simp
    · simp

theorem digitsToNat_append_singleton (ds : List Nat) (c : Nat) :
    digitsToNat (ds ++ [c]) = digitsToNat ds * 10 + (c - 48) := by
  unfold digitsToNat
  rw [List.foldl_append]
  simp

theorem digitsToNat_natDigitsAux (fuel n : Nat) (h : n ≤ fuel) :
    digitsToNat (natDigitsAux fuel n) = n := by
  induction fuel generalizing n with
  | zero =>
    have : n = 0 := by omega
    subst this
    simp [natDigitsAux, digitsToNat]
  | succ fuel ih =>
    simp only [natDigitsAux]
    split
    · simp only [digitsToNat, List.foldl_cons, List.foldl_nil]
      omega
    · rename_i h10
      rw [digitsToNat_append_singleton]
      have hdiv : n / 10 ≤ fuel := by
        have := Nat.div_lt_self (by omega : 0 < n) (by norm_num : 1 < 10)
        omega
      rw [ih _ hdiv]
      have := Nat.div_add_mod n 10
      omega

theorem digitsToNat_natDigits (n : Nat) : digitsToNat (natDigits n) = n :=
  digitsToNat_natDigitsAux n n le_rfl

/-- Parsing the digits of `n` followed by a non-digit (or nothing) yields
`n` and the remainder. -/
theorem parseNum_natDigits (n : Nat) (rest : List Nat)
    (hrest : ∀ c, rest.head? = some c → isDigit c = false) :
    parseNum (natDigits n ++ rest) = some (n, rest) := by
  unfold parseNum
  have hall : ∀ c ∈ natDigits n, isDigit c = true := by
    intro c hc
    have := natDigits_digits n c hc
    simp [isDigit]
    omega
  have htw : (natDigits n ++ rest).takeWhile isDigit = natDigits n := by
    rw [List.takeWhile_append_of_pos hall]
    cases rest with
    | nil => simp
    | cons c t =>
      have := hrest c (by simp)
      simp [List.takeWhile_cons, this]
  have hdw : (natDigits n ++ rest).dropWhile isDigit = rest := by
    rw [List.dropWhile_append_of_pos hall]
    cases rest with
    | nil => simp
    | cons c t =>
      have := hrest c (by simp)
      simp [List.dropWhile_cons, this]
  rw [htw, hdw]
  have hne : (natDigits n).isEmpty = false := by
    cases hnd : natDigits n with
    | nil => exact absurd hnd (natDigits_ne_nil n)
    | cons a t => simp
  simp only [hne, Bool.false_eq_true, if_false, digitsToNat_natDigits]

/-! String escaping roundtrip. -/

theorem escapeByte_other (c : Nat) (h34 : c ≠ 34) (h92 : c ≠ 92) : escapeByte c = [c] := by
  simp [escapeByte, h34, h92]

theorem parseStrBytes_escape (s : List Nat) (rest : List Nat)
    (hs : ∀ c ∈ s, 32 ≤ c) :
    parseStrBytes (escapeStr s ++ 34 :: rest) = some (s, rest) := by
  induction s with
  | nil =>
    rw [show escapeStr [] = [] from rfl, List.nil_append, parseStrBytes.eq_def]
    simp
  | cons c s ih =>
    have hc := hs c (by simp)
    have ihs := ih (fun x hx => hs x (by simp [hx]))
    by_cases h34 : c = 34
    · subst h34
      rw [show escapeStr (34 :: s) = 92 :: 34 :: escapeStr s from rfl]
      rw [List.cons_append, List.cons_append, parseStrBytes.eq_def]
      simp [unescapeByte, ihs]
    · by_cases h92 : c = 92
      · subst h92
        rw [show escapeStr (92 :: s) = 92 :: 92 :: escapeStr s from rfl]
        rw [List.cons_append, List.cons_append, parseStrBytes.eq_def]
        simp [unescapeByte, ihs]
      · rw [show escapeStr (c :: s) = escapeByte c ++ escapeStr s from rfl,
          escapeByte_other c h34 h92]
        rw [List.singleton_append, List.cons_append, parseStrBytes.eq_def]
        simp [h34, h92, hc, ihs]

/-! Helper lemmas about the serializer output needed for the parsing
roundtrip. -/

theorem expectBytes_self (pat rest : List Nat) : expectBytes pat (pat ++ rest) = some rest := by
  induction pat with
  | nil => rfl
  | cons p ps ih => simp [expectBytes, ih]

theorem skipWs_cons_of_not_ws (c : Nat) (l : List Nat) (h : isWs c = false) :
    skipWs (c :: l) = c :: l := by
  simp [skipWs, h]

theorem strWFb_spec (s : List Nat) (h : strWFb s = true) : ∀ c ∈ s, 32 ≤ c ∧ c < 256 := by
  intro c hc
  unfold strWFb at h
  rw [List.all_eq_true] at h
  have := h c hc
  simp at this
  omega

/-- Positivity of the parsing-fuel size. -/
theorem Json.size_pos (v : Json) : 1 ≤ Json.size v := by
  cases v <;> simp [Json.size]

/-- The head byte of any serialized value is not whitespace, not a digit
separator, and not a closing delimiter.  The disjunction also records which
leading bytes are possible. -/
theorem Json.ser_head (v : Json) :
    ∃ c t, Json.ser v = c :: t ∧ isWs c = false ∧ c ≠ 93 ∧ c ≠ 125 ∧ c ≠ 44 ∧ c ≠ 58 := by
  cases v with
  | null => exact ⟨110, _, rfl, by decide, by decide, by decide, by decide, by decide⟩
  | bool b =>
    cases b
    · exact ⟨102, _, rfl, by decide, by decide, by decide, by decide, by decide⟩
    · exact ⟨116, _, rfl, by decide, by decide, by decide, by decide, by decide⟩
  | num n =>
    obtain ⟨c, t, h⟩ : ∃ c t, natDigits n = c :: t := by
      cases hnd : natDigits n with
      | nil => exact absurd hnd (natDigits_ne_nil n)
      | cons c t => exact ⟨c, t, rfl⟩
    have hd := natDigits_digits n c (by rw [h]; simp)
    refine ⟨c, t, ?_, ?_, ?_, ?_, ?_, ?_⟩
    · simpa [Json.ser] using h
    · simp [isWs]; omega
    · omega
    · omega
    · omega
    · omega
  | str s => exact ⟨34, _, rfl, by decide, by decide, by decide, by decide, by decide⟩
  | arr es => exact ⟨91, _, rfl, by decide, by decide, by decide, by decide, by decide⟩
  | obj fs => exact ⟨123, _, rfl, by decide, by decide, by decide, by decide, by decide⟩

/-- Condition on the remainder after a serialized value that makes number
parsing unambiguous: the remainder does not start with a digit. -/
def restOk (rest : List Nat) : Prop := ∀ c, rest.head? = some c → isDigit c = false

theorem restOk_nil : restOk [] := by intro c hc; simp at hc

theorem restOk_cons (c : Nat) (l : List Nat) (h : isDigit c = false) : restOk (c :: l) := by
  intro x hx
  simp only [List.head?_cons, Option.some.injEq] at hx
  subst hx
  exact h

theorem serItems_cons_head (e : Json) (es2 : List Json) :
    ∃ c t2, Json.serItems (e :: es2) = c :: t2 ∧ isWs c = false ∧ c ≠ 93 := by
  obtain ⟨c, t, hser, hws, h93, _, _, _⟩ := Json.ser_head e
  cases es2 with
  | nil => exact ⟨c, t, by simp [Json.serItems, hser], hws, h93⟩
  | cons f es3 =>
    exact ⟨c, t ++ 44 :: Json.serItems (f :: es3), by simp [Json.serItems, hser], hws, h93⟩

theorem serFields_cons_head (k : List Nat) (v : Json) (fs2 : List (List Nat × Json)) :
    ∃ t2, Json.serFields ((k, v) :: fs2) = 34 :: t2 := by
  cases fs2 with
  | nil => exact ⟨_, rfl⟩
  | cons kv fs3 => exact ⟨_, rfl⟩

/-- Joint parsing-of-serialization roundtrip for values, array items and
object fields, by induction on the parsing fuel. -/
theorem parse_ser_trio : ∀ fuel : Nat,
    (∀ v rest, Json.wfb v = true → Json.size v ≤ fuel → restOk rest →
      parseVal fuel (Json.ser v ++ rest) = some (v, rest)) ∧
    (∀ es rest, es ≠ [] → Json.wfbList es = true → Json.sizeItems es ≤ fuel →
      parseItems fuel (Json.serItems es ++ 93 :: rest) = some (es, rest)) ∧
    (∀ fs rest, fs ≠ [] → Json.wfbFields fs = true → Json.sizeFields fs ≤ fuel →
      parseFields fuel (Json.serFields fs ++ 125 :: rest) = some (fs, rest)) := by
  intro fuel
  induction fuel with
  | zero =>
    refine ⟨?_, ?_, ?_⟩
    · intro v _ _ hsz _
      have := Json.size_pos v
      omega
    · intro es _ hne _ hsz
      cases es with
      | nil => exact absurd rfl hne
      | cons e es2 => simp [Json.sizeItems] at hsz
    · intro fs _ hne _ hsz
      cases fs with
      | nil => exact absurd rfl hne
      | cons kv fs2 =>
        obtain ⟨k, v⟩ := kv
        simp [Json.sizeFields] at hsz
  | succ fuel ih =>
    obtain ⟨ihV, ihI, ihF⟩ := ih
    refine ⟨?_, ?_, ?_⟩
    · -- values
      intro v rest hwf hsz hrest
      cases v with
      | null =>
        rw [show Json.ser Json.null = [110, 117, 108, 108] from rfl]
        simp only [List.cons_append, List.nil_append]
        simp only [parseVal]
        rw [skipWs_cons_of_not_ws 110 _ (by decide)]
        simp [expectBytes]
      | bool b =>
        cases b
        · rw [show Json.ser (Json.bool false) = [102, 97, 108, 115, 101] from rfl]
          simp only [List.cons_append, List.nil_append]
          simp only [parseVal]
          rw [skipWs_cons_of_not_ws 102 _ (by decide)]
          simp [expectBytes]
        · rw [show Json.ser (Json.bool true) = [116, 114, 117, 101] from rfl]
          simp only [List.cons_append, List.nil_append]
          simp only [parseVal]
          rw [skipWs_cons_of_not_ws 116 _ (by decide)]
          simp [expectBytes]
      | num n =>
        obtain ⟨c, t, hnd⟩ : ∃ c t, natDigits n = c :: t := by
          cases hnd : natDigits n with
          | nil => exact absurd hnd (natDigits_ne_nil n)
          | cons c t => exact ⟨c, t, rfl⟩
        have hd := natDigits_digits n c (by rw [hnd]; simp)
        rw [show Json.ser (Json.num n) = natDigits n from rfl, hnd]
        simp only [List.cons_append]
        simp only [parseVal]
        rw [skipWs_cons_of_not_ws c _ (by simp [isWs]; omega)]
        have h110 : c ≠ 110 := by omega
        have h116 : c ≠ 116 := by omega
        have h102 : c ≠ 102 := by omega
        have h34 : c ≠ 34 := by omega
        have h91 : c ≠ 91 := by omega
        have h123 : c ≠ 123 := by omega
        have hdig : isDigit c = true := by simp [isDigit]; omega
        simp only [h110, h116, h102, h34, h91, h123, hdig, if_false, if_true,
          reduceIte]
        rw [show c :: (t ++ rest) = natDigits n ++ rest by rw [hnd]; rfl]
        rw [parseNum_natDigits n rest hrest]
        rfl
      | str s =>
        have hs : ∀ c ∈ s, 32 ≤ c := by
          intro c hc
          have hx := strWFb_spec s (by simpa [Json.wfb] using hwf) c hc
          omega
        rw [show Json.ser (Json.str s) = (34 :: escapeStr s) ++ [34] from rfl]
        simp only [List.cons_append, List.append_assoc, List.nil_append]
        simp only [parseVal]
        rw [skipWs_cons_of_not_ws 34 _ (by decide)]
        simp only [show (34 : Nat) ≠ 110 by decide, show (34 : Nat) ≠ 116 by decide,
          show (34 : Nat) ≠ 102 by decide, if_false, if_true, reduceIte]
        rw [parseStrBytes_escape s rest hs]
        rfl
      | arr es =>
        cases es with
        | nil =>
          rw [show Json.ser (Json.arr []) = [91, 93] from rfl]
          simp only [List.cons_append, List.nil_append]
          simp only [parseVal]
          rw [skipWs_cons_of_not_ws 91 _ (by decide)]
          simp only [show (91 : Nat) ≠ 110 by decide, show (91 : Nat) ≠ 116 by decide,
            show (91 : Nat) ≠ 102 by decide, show (91 : Nat) ≠ 34 by decide, if_false,
            reduceIte]
          rw [skipWs_cons_of_not_ws 93 _ (by decide)]
          simp
        | cons e es2 =>
          rw [show Json.ser (Json.arr (e :: es2)) = (91 :: Json.serItems (e :: es2)) ++ [93]
            from rfl]
          simp only [List.cons_append, List.append_assoc, List.nil_append]
          simp only [parseVal]
          rw [skipWs_cons_of_not_ws 91 _ (by decide)]
          simp only [show (91 : Nat) ≠ 110 by decide, show (91 : Nat) ≠ 116 by decide,
            show (91 : Nat) ≠ 102 by decide, show (91 : Nat) ≠ 34 by decide, if_false,
            reduceIte]
          obtain ⟨c, t2, hhead, hws, h93⟩ := serItems_cons_head e es2
          have hresteq : skipWs (Json.serItems (e :: es2) ++ 93 :: rest) =
              Json.serItems (e :: es2) ++ 93 :: rest := by
            rw [hhead]
            simp only [List.cons_append]
            exact skipWs_cons_of_not_ws c _ hws
          rw [hresteq]
          have hne : (Json.serItems (e :: es2) ++ 93 :: rest).head? ≠ some 93 := by
            rw [hhead]
            simp [h93]
          rw [if_neg hne]
          have hwfl : Json.wfbList (e :: es2) = true := by simpa [Json.wfb] using hwf
          have hszl : Json.sizeItems (e :: es2) ≤ fuel := by
            simp only [Json.size] at hsz
            omega
          rw [ihI (e :: es2) rest (by simp) hwfl hszl]
          rfl
      | obj fs =>
        cases fs with
        | nil =>
          rw [show Json.ser (Json.obj []) = [123, 125] from rfl]
          simp only [List.cons_append, List.nil_append]
          simp only [parseVal]
          rw [skipWs_cons_of_not_ws 123 _ (by decide)]
          simp only [show (123 : Nat) ≠ 110 by decide, show (123 : Nat) ≠ 116 by decide,
            show (123 : Nat) ≠ 102 by decide, show (123 : Nat) ≠ 34 by decide,
            show (123 : Nat) ≠ 91 by decide, if_false, reduceIte]
          rw [skipWs_cons_of_not_ws 125 _ (by decide)]
          simp
        | cons kv fs2 =>
          obtain ⟨k, v⟩ := kv
          rw [show Json.ser (Json.obj ((k, v) :: fs2)) =
            (123 :: Json.serFields ((k, v) :: fs2)) ++ [125] from rfl]
          simp only [List.cons_append, List.append_assoc, List.nil_append]
          simp only [parseVal]
          rw [skipWs_cons_of_not_ws 123 _ (by decide)]
          simp only [show (123 : Nat) ≠ 110 by decide, show (123 : Nat) ≠ 116 by decide,
            show (123 : Nat) ≠ 102 by decide, show (123 : Nat) ≠ 34 by decide,
            show (123 : Nat) ≠ 91 by decide, if_false, reduceIte]
          obtain ⟨t2, hhead⟩ := serFields_cons_head k v fs2
          have hresteq : skipWs (Json.serFields ((k, v) :: fs2) ++ 125 :: rest) =
              Json.serFields ((k, v) :: fs2) ++ 125 :: rest := by
            rw [hhead]
            simp only [List.cons_append]
            exact skipWs_cons_of_not_ws 34 _ (by decide)
          rw [hresteq]
          have hne : (Json.serFields ((k, v) :: fs2) ++ 125 :: rest).head? ≠ some 125 := by
            rw [hhead]
            simp
          rw [if_neg hne]
          have hwff : Json.wfbFields ((k, v) :: fs2) = true := by simpa [Json.wfb] using hwf
          have hszf : Json.sizeFields ((k, v) :: fs2) ≤ fuel := by
            simp only [Json.size] at hsz
            omega
          rw [ihF ((k, v) :: fs2) rest (by simp) hwff hszf]
          rfl
    · -- items
      intro es rest hne hwf hsz
      cases es with
      | nil => exact absurd rfl hne
      | cons e es2 =>
        have hwfe : Json.wfb e = true := by
          simp only [Json.wfbList, Bool.and_eq_true] at hwf
          exact hwf.1
        have hwfes : Json.wfbList es2 = true := by
          simp only [Json.wfbList, Bool.and_eq_true] at hwf
          exact hwf.2
        simp only [Json.sizeItems] at hsz
        cases es2 with
        | nil =>
          rw [show Json.serItems [e] = Json.ser e from rfl]
          simp only [parseItems]
          rw [ihV e (93 :: rest) hwfe (by omega) (restOk_cons 93 rest (by decide))]
          simp [skipWs_cons_of_not_ws, isWs]
        | cons f es3 =>
          rw [show Json.serItems (e :: f :: es3) = Json.ser e ++ 44 :: Json.serItems (f :: es3)
            from rfl]
          simp only [List.append_assoc, List.cons_append]
          simp only [parseItems]
          rw [ihV e (44 :: (Json.serItems (f :: es3) ++ 93 :: rest)) hwfe (by omega)
            (restOk_cons 44 _ (by decide))]
          simp only [skipWs_cons_of_not_ws 44 _ (by decide), List.head?_cons,
            Option.some.injEq, List.tail_cons, reduceIte]
          rw [ihI (f :: es3) rest (by simp) hwfes (by simp only [Json.sizeItems] at hsz ⊢; omega)]
          rfl
    · -- fields
      intro fs rest hne hwf hsz
      cases fs with
      | nil => exact absurd rfl hne
      | cons kv fs2 =>
        obtain ⟨k, v⟩ := kv
        have hwfk : strWFb k = true := by
          simp only [Json.wfbFields, Bool.and_eq_true] at hwf
          exact hwf.1.1
        have hwfv : Json.wfb v = true := by
          simp only [Json.wfbFields, Bool.and_eq_true] at hwf
          exact hwf.1.2
        have hwffs : Json.wfbFields fs2 = true := by
          simp only [Json.wfbFields, Bool.and_eq_true] at hwf
          exact hwf.2
        have hks : ∀ c ∈ k, 32 ≤ c := fun c hc => (strWFb_spec k hwfk c hc).1
        simp only [Json.sizeFields] at hsz
        cases fs2 with
        | nil =>
          rw [show Json.serFields [(k, v)] = (34 :: escapeStr k) ++ 34 :: 58 :: Json.ser v
            from rfl]
          simp only [List.cons_append, List.append_assoc, List.nil_append]
          simp only [parseFields]
          rw [skipWs_cons_of_not_ws 34 _ (by decide)]
          simp only [reduceIte]
          rw [parseStrBytes_escape k _ hks]
          simp only [skipWs_cons_of_not_ws 58 _ (by decide), List.head?_cons,
            Option.some.injEq, List.tail_cons, reduceIte]
          rw [ihV v (125 :: rest) hwfv (by omega) (restOk_cons 125 rest (by decide))]
          simp [skipWs_cons_of_not_ws, isWs]
        | cons kw fs3 =>
          rw [show Json.serFields ((k, v) :: kw :: fs3) =
            (34 :: escapeStr k) ++ 34 :: 58 :: Json.ser v ++ 44 :: Json.serFields (kw :: fs3)
            from rfl]
          simp only [List.cons_append, List.append_assoc, List.nil_append]
          simp only [parseFields]
          rw [skipWs_cons_of_not_ws 34 _ (by decide)]
          simp only [reduceIte]
          rw [parseStrBytes_escape k _ hks]
          simp only [skipWs_cons_of_not_ws 58 _ (by decide), List.head?_cons,
            Option.some.injEq, List.tail_cons, reduceIte]
          rw [ihV v (44 :: (Json.serFields (kw :: fs3) ++ 125 :: rest)) hwfv (by omega)
            (restOk_cons 44 _ (by decide))]
          simp only [skipWs_cons_of_not_ws 44 _ (by decide), List.head?_cons,
            Option.some.injEq, List.tail_cons, reduceIte]
          rw [ihF (kw :: fs3) rest (by simp) hwffs (by simp only [Json.sizeFields] at hsz ⊢; omega)]
          rfl

/-! Fuel bounds: the serialized length dominates the nesting size, so the
default fuel of `jsonParse` always suffices for re-parsing serializer
output. -/

theorem serItems_length_bound (es : List Json)
    (ih : ∀ e ∈ es, Json.size e ≤ (Json.ser e).length) :
    Json.sizeItems es ≤ (Json.serItems es).length + 1 := by
  induction es with
  | nil => simp [Json.sizeItems, Json.serItems]
  | cons e es2 ihl =>
    cases es2 with
    | nil =>
      have := ih e (by simp)
      simp only [Json.sizeItems, Json.serItems, List.length_nil]
      omega
    | cons f es3 =>
      have h1 := ih e (by simp)
      have h2 := ihl (fun x hx => ih x (by simp [hx]))
      rw [show Json.serItems (e :: f :: es3) = Json.ser e ++ 44 :: Json.serItems (f :: es3)
        from rfl]
      rw [show Json.sizeItems (e :: f :: es3) = 1 + Json.size e + Json.sizeItems (f :: es3)
        from rfl]
      simp only [List.length_append, List.length_cons]
      omega

theorem serFields_length_bound (fs : List (List Nat × Json))
    (ih : ∀ kv ∈ fs, Json.size kv.2 ≤ (Json.ser kv.2).length) :
    Json.sizeFields fs ≤ (Json.serFields fs).length + 1 := by
  induction fs with
  | nil => simp [Json.sizeFields, Json.serFields]
  | cons kv fs2 ihl =>
    obtain ⟨k, v⟩ := kv
    cases fs2 with
    | nil =>
      have h0 : Json.size v ≤ (Json.ser v).length := ih (k, v) (by simp)
      rw [show Json.serFields [(k, v)] = (34 :: escapeStr k) ++ 34 :: 58 :: Json.ser v
        from rfl]
      rw [show Json.sizeFields [(k, v)] = 1 + Json.size v + Json.sizeFields [] from rfl]
      simp only [List.length_append, List.length_cons, Json.sizeFields]
      omega
    | cons kw fs3 =>
      have h1 : Json.size v ≤ (Json.ser v).length := ih (k, v) (by simp)
      have h2 := ihl (fun x hx => ih x (by simp [hx]))
      rw [show Json.serFields ((k, v) :: kw :: fs3) =
        (34 :: escapeStr k) ++ 34 :: 58 :: Json.ser v ++ 44 :: Json.serFields (kw :: fs3)
        from rfl]
      rw [show Json.sizeFields ((k, v) :: kw :: fs3) =
        1 + Json.size v + Json.sizeFields (kw :: fs3) from rfl]
      simp only [List.length_append, List.length_cons]
      omega

theorem Json.size_le_ser_length : ∀ v : Json, Json.size v ≤ (Json.ser v).length
  | .null => by simp [Json.size, Json.ser]
  | .bool b => by cases b <;> simp [Json.size, Json.ser]
  | .num n => by
    rw [show Json.size (Json.num n) = 1 from rfl, show Json.ser (Json.num n) = natDigits n
      from rfl]
    cases hnd : natDigits n with
    | nil => exact absurd hnd (natDigits_ne_nil n)
    | cons c t => simp
  | .str s => by
    rw [show Json.size (Json.str s) = 1 from rfl,
      show Json.ser (Json.str s) = (34 :: escapeStr s) ++ [34] from rfl]
    simp
  | .arr es => by
    have hb := serItems_length_bound es (fun e he => Json.size_le_ser_length e)
    rw [show Json.size (Json.arr es) = 1 + Json.sizeItems es from rfl,
      show Json.ser (Json.arr es) = (91 :: Json.serItems es) ++ [93] from rfl]
    simp only [List.length_append, List.length_cons, List.length_singleton]
    omega
  | .obj fs => by
    have hb := serFields_length_bound fs (fun kv hkv => Json.size_le_ser_length kv.2)
    rw [show Json.size (Json.obj fs) = 1 + Json.sizeFields fs from rfl,
      show Json.ser (Json.obj fs) = (123 :: Json.serFields fs) ++ [125] from rfl]
    simp only [List.length_append, List.length_cons, List.length_singleton]
    omega
termination_by v => sizeOf v
decreasing_by
  · simp_wf
    have := List.sizeOf_lt_of_mem he
    omega
  · simp_wf
    have h1 := List.sizeOf_lt_of_mem hkv
    obtain ⟨k, v⟩ := kv
    simp at h1 ⊢
    omega

/-- Re-parsing serializer output yields the value back
(the `serde_json` roundtrip law used by the codec proofs). -/
theorem jsonParse_ser (v : Json) (hwf : Json.wfb v = true) : jsonParse (Json.ser v) = some v := by
  unfold jsonParse
  have hfuel : Json.size v ≤ (Json.ser v).length + 1 := by
    have := Json.size_le_ser_length v
    omega
  have h := (parse_ser_trio ((Json.ser v).length + 1)).1 v [] hwf hfuel restOk_nil
  rw [List.append_nil] at h
  rw [h]
  simp [skipWs]

/-! Serializer output is made of byte values. -/

theorem escapeStr_bytes (s : List Nat) (hs : ∀ c ∈ s, c < 256) :
    ∀ b ∈ escapeStr s, b < 256 := by
  induction s with
  | nil => simp [escapeStr]
  | cons c s ih =>
    intro b hb
    simp only [escapeStr, List.mem_append] at hb
    rcases hb with hb | hb
    · have hc := hs c (by simp)
      unfold escapeByte at hb
      by_cases h34 : c = 34
      · rw [if_pos h34] at hb
        simp only [List.mem_cons, List.not_mem_nil, or_false] at hb
        omega
      · rw [if_neg h34] at hb
        by_cases h92 : c = 92
        · rw [if_pos h92] at hb
          simp only [List.mem_cons, List.not_mem_nil, or_false] at hb
          omega
        · rw [if_neg h92] at hb
          simp only [List.mem_singleton] at hb
          omega
    · exact ih (fun x hx => hs x (by simp [hx])) b hb

theorem natDigits_bytes (n : Nat) : ∀ b ∈ natDigits n, b < 256 := by
  intro b hb
  have := natDigits_digits n b hb
  omega

theorem serItems_bytes (es : List Json)
    (ih : ∀ e ∈ es, ∀ b ∈ Json.ser e, b < 256) :
    ∀ b ∈ Json.serItems es, b < 256 := by
  induction es with
  | nil => simp [Json.serItems]
  | cons e es2 ihl =>
    cases es2 with
    | nil =>
      rw [show Json.serItems [e] = Json.ser e from rfl]
      exact ih e (by simp)
    | cons f es3 =>
      rw [show Json.serItems (e :: f :: es3) = Json.ser e ++ 44 :: Json.serItems (f :: es3)
        from rfl]
      intro b hb
      simp only [List.mem_append, List.mem_cons] at hb
      rcases hb with hb | hb | hb
      · exact ih e (by simp) b hb
      · omega
      · exact ihl (fun x hx => ih x (by simp [hx])) b hb

theorem wfbList_mem (es : List Json) (h : Json.wfbList es = true) :
    ∀ e ∈ es, Json.wfb e = true := by
  induction es with
  | nil => simp
  | cons f es2 ih =>
    simp only [Json.wfbList, Bool.and_eq_true] at h
    intro e he
    rcases List.mem_cons.mp he with rfl | he2
    · exact h.1
    · exact ih h.2 e he2

theorem wfbFields_mem (fs : List (List Nat × Json)) (h : Json.wfbFields fs = true) :
    ∀ kv ∈ fs, strWFb kv.1 = true ∧ Json.wfb kv.2 = true := by
  induction fs with
  | nil => simp
  | cons kw fs2 ih =>
    obtain ⟨k2, w⟩ := kw
    simp only [Json.wfbFields, Bool.and_eq_true] at h
    intro kv hkv
    rcases List.mem_cons.mp hkv with rfl | hkv2
    · exact ⟨h.1.1, h.1.2⟩
    · exact ih h.2 kv hkv2

theorem serFields_bytes (fs : List (List Nat × Json))
    (ihv : ∀ kv ∈ fs, ∀ b ∈ Json.ser kv.2, b < 256)
    (ihk : ∀ kv ∈ fs, ∀ b ∈ kv.1, b < 256) :
    ∀ b ∈ Json.serFields fs, b < 256 := by
  induction fs with
  | nil => simp [Json.serFields]
  | cons kv fs2 ihl =>
    obtain ⟨k, v⟩ := kv
    have hkb : ∀ b ∈ escapeStr k, b < 256 :=
      escapeStr_bytes k (fun c hc => ihk (k, v) (by simp) c hc)
    have hvb : ∀ b ∈ Json.ser v, b < 256 := fun b hb => ihv (k, v) (by simp) b hb
    cases fs2 with
    | nil =>
      rw [show Json.serFields [(k, v)] = (34 :: escapeStr k) ++ 34 :: 58 :: Json.ser v
        from rfl]
      intro b hb
      simp only [List.mem_append, List.mem_cons] at hb
      have key : b = 34 ∨ b = 58 ∨ b ∈ escapeStr k ∨ b ∈ Json.ser v := by tauto
      rcases key with rfl | rfl | h | h
      · norm_num
      · norm_num
      · exact hkb b h
      · exact hvb b h
    | cons kw fs3 =>
      have hrec := ihl (fun x hx => ihv x (by simp [hx])) (fun x hx => ihk x (by simp [hx]))
      rw [show Json.serFields ((k, v) :: kw :: fs3) =
        (34 :: escapeStr k) ++ 34 :: 58 :: Json.ser v ++ 44 :: Json.serFields (kw :: fs3)
        from rfl]
      intro b hb
      simp only [List.mem_append, List.mem_cons] at hb
      have key : b = 34 ∨ b = 58 ∨ b = 44 ∨ b ∈ escapeStr k ∨ b ∈ Json.ser v ∨
          b ∈ Json.serFields (kw :: fs3) := by tauto
      rcases key with rfl | rfl | rfl | h | h | h
      · norm_num
      · norm_num
      · norm_num
      · exact hkb b h
      · exact hvb b h
      · exact hrec b h

theorem Json.ser_bytes : ∀ v : Json, Json.wfb v = true → ∀ b ∈ Json.ser v, b < 256
  | .null => by
    intro _ b hb
    rw [show Json.ser Json.null = [110, 117, 108, 108] from rfl] at hb
    rcases List.mem_cons.mp hb with rfl | hb
    · norm_num
    · simp only [List.mem_cons, List.not_mem_nil, or_false] at hb
      omega
  | .bool x => by
    intro _ b hb
    cases x <;>
      · simp only [Json.ser, List.mem_cons, List.not_mem_nil, or_false] at hb
        omega
  | .num n => by
    intro _ b hb
    exact natDigits_bytes n b hb
  | .str s => by
    intro hwf b hb
    rw [show Json.ser (Json.str s) = (34 :: escapeStr s) ++ [34] from rfl] at hb
    have hsb : ∀ c ∈ s, c < 256 := fun c hc =>
      (strWFb_spec s (by simpa [Json.wfb] using hwf) c hc).2
    simp only [List.mem_append, List.mem_cons, List.mem_singleton, List.not_mem_nil,
      or_false] at hb
    have key : b = 34 ∨ b ∈ escapeStr s := by tauto
    rcases key with rfl | h
    · norm_num
    · exact escapeStr_bytes s hsb b h
  | .arr es => by
    intro hwf b hb
    rw [show Json.ser (Json.arr es) = (91 :: Json.serItems es) ++ [93] from rfl] at hb
    have helem := wfbList_mem es (by simpa [Json.wfb] using hwf)
    simp only [List.mem_append, List.mem_cons, List.mem_singleton, List.not_mem_nil,
      or_false] at hb
    have key : b = 91 ∨ b = 93 ∨ b ∈ Json.serItems es := by tauto
    rcases key with rfl | rfl | h
    · norm_num
    · norm_num
    · exact serItems_bytes es (fun e he => Json.ser_bytes e (helem e he)) b h
  | .obj fs => by
    intro hwf b hb
    rw [show Json.ser (Json.obj fs) = (123 :: Json.serFields fs) ++ [125] from rfl] at hb
    have helem := wfbFields_mem fs (by simpa [Json.wfb] using hwf)
    simp only [List.mem_append, List.mem_cons, List.mem_singleton, List.not_mem_nil,
      or_false] at hb
    have key : b = 123 ∨ b = 125 ∨ b ∈ Json.serFields fs := by tauto
    rcases key with rfl | rfl | h
    · norm_num
    · norm_num
    · exact serFields_bytes fs (fun kv hkv => Json.ser_bytes kv.2 (helem kv hkv).2)
        (fun kv hkv c hc => (strWFb_spec kv.1 (helem kv hkv).1 c hc).2) b h
termination_by v => sizeOf v
decreasing_by
  · simp_wf
    have := List.sizeOf_lt_of_mem he
    omega
  · simp_wf
    have h1 := List.sizeOf_lt_of_mem hkv
    obtain ⟨k, v⟩ := kv
    simp at h1 ⊢
    omega


/-! Well-formedness of messages, and the payload-level roundtrip. -/

/-- Well-formedness of a payload: the timestamp fits in a `u64`, the method
name and the argument value are within the modelled JSON fragment. -/
def DataWF (d : FastMessageData) : Prop :=
  d.m.uts < 2 ^ 64 ∧ strWFb d.m.name = true ∧ Json.wfb d.d = true

/-- Well-formedness of a message: the id is a `u32`, the payload is
well-formed, and the encoded payload length fits in the `data_length`
header field. -/
def MsgWF (m : FastMessage) : Prop :=
  m.id < 2 ^ 32 ∧ DataWF m.data ∧ (serData m.data).length < 2 ^ 32

instance (d : FastMessageData) : Decidable (DataWF d) := by
  unfold DataWF
  infer_instance

instance (m : FastMessage) : Decidable (MsgWF m) := by
  unfold MsgWF
  infer_instance

theorem dataToJson_wfb (d : FastMessageData) (h1 : strWFb d.m.name = true)
    (h2 : Json.wfb d.d = true) : Json.wfb (dataToJson d) = true := by
  simp [dataToJson, metaToJson, Json.wfb, Json.wfbFields, h2, strWFb]
  exact fun x hx => strWFb_spec _ h1 x hx

theorem jsonToData_dataToJson (d : FastMessageData) (huts : d.m.uts < 2 ^ 64) :
    jsonToData (dataToJson d) = some d := by
  have huts2 : d.m.uts < 18446744073709551616 := by omega
  simp [jsonToData, dataToJson, metaToJson, jsonToMeta, lookupField, huts2]

/-- Decoding the serialized payload of a well-formed message yields the
payload back. -/
theorem parse_data_serData (d : FastMessageData) (hwf : DataWF d) :
    parse_data (serData d) = .ok d := by
  obtain ⟨huts, hname, hd⟩ := hwf
  unfold parse_data serData
  rw [jsonParse_ser (dataToJson d) (dataToJson_wfb d hname hd)]
  simp [jsonToData_dataToJson d huts]

/-- All bytes of a well-formed serialized payload are byte values. -/
theorem serData_bytes (d : FastMessageData) (hwf : DataWF d) :
    ∀ b ∈ serData d, b < 256 := by
  obtain ⟨huts, hname, hd⟩ := hwf
  exact Json.ser_bytes (dataToJson d) (dataToJson_wfb d hname hd)

/-! Big-endian field lemmas. -/

theorem be32_length (n : Nat) : (be32 n).length = 4 := rfl

theorem readBe32_be32 (n : Nat) (h : n < 2 ^ 32) : readBe32 (be32 n) = n := by
  simp only [be32, readBe32]
  omega

theorem be32_bytes (n : Nat) : ∀ b ∈ be32 n, b < 256 := by
  intro b hb
  simp only [be32, List.mem_cons, List.not_mem_nil, or_false] at hb
  rcases hb with rfl | rfl | rfl | rfl <;> exact Nat.mod_lt _ (by norm_num)

/-! Parsing an encoded frame. -/

theorem type_from_to (t : FastMessageType) : FastMessageType.from_u8 t.to_u8 = some t := by
  cases t <;> rfl

theorem status_from_to (s : FastMessageStatus) :
    FastMessageStatus.from_u8 s.to_u8 = some s := by
  cases s <;> rfl

theorem getElem?_cons_one (a b : Nat) (l : List Nat) : (a :: b :: l)[1]? = some b := by
  simp

theorem getElem?_cons_two (a b c : Nat) (l : List Nat) : (a :: b :: c :: l)[2]? = some c := by
  simp

theorem slice?_exact (pre mid post : List Nat) (a b : Nat) (ha : a = pre.length)
    (hb : b = pre.length + mid.length) :
    slice? (pre ++ (mid ++ post)) a b = some mid := by
  subst ha
  subst hb
  unfold slice?
  rw [if_pos ⟨by omega, by simp only [List.length_append]; omega⟩]
  rw [show pre.length + mid.length - pre.length = mid.length by omega]
  rw [List.drop_left, List.take_left]

/-- The `msg_size` field assigned by `FastMessage::parse` to a re-parsed
message: the on-wire size for DATA and ERROR frames, `None` for END. -/
def msgSizeOf (M : FastMessage) : Option Nat :=
  match M.status with
  | FastMessageStatus.End => none
  | _ => some (FP_OFF_DATA + (serData M.data).length)

/-- Parsing any buffer that starts with a syntactically valid frame: the
version byte `v` is arbitrary (the parser never reads offset 0), and any
bytes may follow the frame. -/
theorem parse_frame (v : Nat) (mt : FastMessageType) (st : FastMessageStatus) (i : Nat)
    (P rest : List Nat) (d : FastMessageData)
    (hi : i < 2 ^ 32) (hPlen : P.length < 2 ^ 32) (hcb : crc16 P < 2 ^ 32)
    (hPd : parse_data P = .ok d) :
    FastMessage.parse (v :: mt.to_u8 :: st.to_u8 ::
        (be32 i ++ (be32 (crc16 P) ++ (be32 P.length ++ (P ++ rest))))) =
      some (.ok ⟨mt, st, i,
        (match st with
         | FastMessageStatus.End => none
         | _ => some (FP_OFF_DATA + P.length)), d⟩) := by
  have hlenB : (v :: mt.to_u8 :: st.to_u8 ::
      (be32 i ++ (be32 (crc16 P) ++ (be32 P.length ++ (P ++ rest))))).length =
      15 + P.length + rest.length := by
    simp [be32]
    omega
  have h1 : check_buffer_size (v :: mt.to_u8 :: st.to_u8 ::
      (be32 i ++ (be32 (crc16 P) ++ (be32 P.length ++ (P ++ rest))))) = .ok () := by
    unfold check_buffer_size
    rw [if_neg (by rw [hlenB]; simp only [FP_HEADER_SZ, FP_OFF_DATA]; omega)]
  have hsl1 : slice? (v :: mt.to_u8 :: st.to_u8 ::
      (be32 i ++ (be32 (crc16 P) ++ (be32 P.length ++ (P ++ rest)))))
      FP_OFF_MSGID (FP_OFF_MSGID + 4) = some (be32 i) := by
    have h := slice?_exact [v, mt.to_u8, st.to_u8] (be32 i)
      (be32 (crc16 P) ++ (be32 P.length ++ (P ++ rest))) FP_OFF_MSGID (FP_OFF_MSGID + 4)
      rfl rfl
    exact h
  have hsl2 : slice? (v :: mt.to_u8 :: st.to_u8 ::
      (be32 i ++ (be32 (crc16 P) ++ (be32 P.length ++ (P ++ rest)))))
      FP_OFF_CRC (FP_OFF_CRC + 4) = some (be32 (crc16 P)) := by
    have h := slice?_exact (v :: mt.to_u8 :: st.to_u8 :: be32 i) (be32 (crc16 P))
      (be32 P.length ++ (P ++ rest)) FP_OFF_CRC (FP_OFF_CRC + 4) rfl rfl
    exact h
  have hsl3 : slice? (v :: mt.to_u8 :: st.to_u8 ::
      (be32 i ++ (be32 (crc16 P) ++ (be32 P.length ++ (P ++ rest)))))
      FP_OFF_DATALEN (FP_OFF_DATALEN + 4) = some (be32 P.length) := by
    have h := slice?_exact (v :: mt.to_u8 :: st.to_u8 :: (be32 i ++ be32 (crc16 P)))
      (be32 P.length) (P ++ rest) FP_OFF_DATALEN (FP_OFF_DATALEN + 4) rfl rfl
    exact h
  have h2 : parse_header (v :: mt.to_u8 :: st.to_u8 ::
      (be32 i ++ (be32 (crc16 P) ++ (be32 P.length ++ (P ++ rest))))) =
      some (.ok ⟨mt, st, i, crc16 P, P.length⟩) := by
    unfold parse_header
    rw [show (v :: mt.to_u8 :: st.to_u8 ::
      (be32 i ++ (be32 (crc16 P) ++ (be32 P.length ++ (P ++ rest)))))[FP_OFF_TYPE]? =
      some mt.to_u8 by simp [FP_OFF_TYPE]]
    rw [show (v :: mt.to_u8 :: st.to_u8 ::
      (be32 i ++ (be32 (crc16 P) ++ (be32 P.length ++ (P ++ rest)))))[FP_OFF_STATUS]? =
      some st.to_u8 by simp [FP_OFF_STATUS]]
    simp only [type_from_to, status_from_to, hsl1, hsl2, hsl3,
      readBe32_be32 i hi, readBe32_be32 _ hcb, readBe32_be32 _ hPlen]
  have h3 : validate_data_length (v :: mt.to_u8 :: st.to_u8 ::
      (be32 i ++ (be32 (crc16 P) ++ (be32 P.length ++ (P ++ rest))))) P.length = .ok () := by
    unfold validate_data_length
    rw [if_neg (by rw [hlenB]; simp only [FP_HEADER_SZ, FP_OFF_DATA]; omega)]
  have h4 : slice? (v :: mt.to_u8 :: st.to_u8 ::
      (be32 i ++ (be32 (crc16 P) ++ (be32 P.length ++ (P ++ rest)))))
      FP_OFF_DATA (FP_OFF_DATA + P.length) = some P := by
    have h := slice?_exact (v :: mt.to_u8 :: st.to_u8 ::
      (be32 i ++ (be32 (crc16 P) ++ be32 P.length))) P rest FP_OFF_DATA
      (FP_OFF_DATA + P.length) rfl rfl
    have heq : (v :: mt.to_u8 :: st.to_u8 ::
        (be32 i ++ (be32 (crc16 P) ++ be32 P.length))) ++ (P ++ rest) =
        v :: mt.to_u8 :: st.to_u8 ::
        (be32 i ++ (be32 (crc16 P) ++ (be32 P.length ++ (P ++ rest)))) := by
      simp [List.cons_append, List.append_assoc]
    rw [heq] at h
    exact h
  have h5 : validate_crc P (crc16 P) = .ok () := by
    unfold validate_crc
    simp
  simp only [FastMessage.parse, h1, h2, h3, h4, h5, hPd]

/-- Parsing the encoding of a well-formed message, with arbitrary trailing
bytes: all header fields and the payload round-trip; `msg_size` is set per
status as `msgSizeOf` describes. -/
theorem parse_encode_append (M : FastMessage) (hWF : MsgWF M) (rest : List Nat) :
    FastMessage.parse (encode_msg M ++ rest) =
      some (.ok ⟨M.msg_type, M.status, M.id, msgSizeOf M, M.data⟩) := by
  obtain ⟨hid, hdwf, hplen⟩ := hWF
  have hcrcb : crc16 (serData M.data) < 2 ^ 32 := by
    have h16 := crc16_lt (serData M.data) (serData_bytes M.data hdwf)
    omega
  have hB : encode_msg M ++ rest =
      FP_VERSION_CURRENT :: M.msg_type.to_u8 :: M.status.to_u8 ::
        (be32 M.id ++ (be32 (crc16 (serData M.data)) ++ (be32 (serData M.data).length ++
          (serData M.data ++ rest)))) := by
    simp [encode_msg, List.cons_append, List.append_assoc]
  rw [hB]
  have h := parse_frame FP_VERSION_CURRENT M.msg_type M.status M.id (serData M.data) rest
    M.data hid hplen hcrcb (parse_data_serData M.data hdwf)
  rw [h]
  cases hst : M.status <;> simp [msgSizeOf, hst]

/-! Totality of `FastMessage::parse`: the `Option` layer that models panics
is never `none`, because the buffer-size checks precede every raw access. -/

theorem slice?_isSome (buf : List Nat) (a b : Nat) (ha : a ≤ b) (hb : b ≤ buf.length) :
    ∃ w, slice? buf a b = some w := by
  refine ⟨(buf.drop a).take (b - a), ?_⟩
  unfold slice?
  rw [if_pos ⟨ha, hb⟩]

theorem parse_header_isSome (buf : List Nat) (h : 15 ≤ buf.length) :
    (parse_header buf).isSome = true := by
  have h1lt : FP_OFF_TYPE < buf.length := by simp only [FP_OFF_TYPE]; omega
  have h2lt : FP_OFF_STATUS < buf.length := by simp only [FP_OFF_STATUS]; omega
  obtain ⟨w1, hw1⟩ := slice?_isSome buf FP_OFF_MSGID (FP_OFF_MSGID + 4)
    (by simp only [FP_OFF_MSGID]; omega) (by simp only [FP_OFF_MSGID]; omega)
  obtain ⟨w2, hw2⟩ := slice?_isSome buf FP_OFF_CRC (FP_OFF_CRC + 4)
    (by simp only [FP_OFF_CRC]; omega) (by simp only [FP_OFF_CRC]; omega)
  obtain ⟨w3, hw3⟩ := slice?_isSome buf FP_OFF_DATALEN (FP_OFF_DATALEN + 4)
    (by simp only [FP_OFF_DATALEN]; omega) (by simp only [FP_OFF_DATALEN]; omega)
  unfold parse_header
  rw [List.getElem?_eq_getElem h1lt, List.getElem?_eq_getElem h2lt, hw1, hw2, hw3]
  cases hft : FastMessageType.from_u8 buf[FP_OFF_TYPE] <;>
    cases hfs : FastMessageStatus.from_u8 buf[FP_OFF_STATUS] <;>
      simp [hft, hfs]

/-- Parse never hits an out-of-bounds access: the 15-byte check precedes the
header field reads and the payload-length check precedes the payload
slice. -/
theorem parse_isSome (buf : List Nat) : (FastMessage.parse buf).isSome = true := by
  by_cases hlen : buf.length < FP_HEADER_SZ
  · simp [FastMessage.parse, check_buffer_size, hlen]
  · have h15 : 15 ≤ buf.length := by
      simp only [FP_HEADER_SZ, FP_OFF_DATA] at hlen
      omega
    obtain ⟨r, hr⟩ := Option.isSome_iff_exists.mp (parse_header_isSome buf h15)
    cases r with
    | error e => simp [FastMessage.parse, check_buffer_size, hlen, hr]
    | ok header =>
      by_cases h2 : buf.length < FP_HEADER_SZ + header.data_len
      · simp [FastMessage.parse, check_buffer_size, validate_data_length, hlen, hr, h2]
      · obtain ⟨w, hw⟩ := slice?_isSome buf FP_OFF_DATA (FP_OFF_DATA + header.data_len)
          (by omega)
          (by simp only [FP_HEADER_SZ, FP_OFF_DATA] at h2; simp only [FP_OFF_DATA]; omega)
        cases hvc : validate_crc w header.crc with
        | error e =>
          simp [FastMessage.parse, check_buffer_size, validate_data_length, hlen, hr, h2,
            hw, hvc]
        | ok u =>
          cases hpd : parse_data w with
          | error e =>
            simp [FastMessage.parse, check_buffer_size, validate_data_length, hlen, hr, h2,
              hw, hvc, hpd]
          | ok d =>
            simp [FastMessage.parse, check_buffer_size, validate_data_length, hlen, hr, h2,
              hw, hvc, hpd]

/-! NeedMore behaviour of parse. -/

/-- A buffer shorter than a header parses to `NotEnoughBytes` carrying the
buffer length. -/
theorem parse_short (buf : List Nat) (h : buf.length < FP_HEADER_SZ) :
    FastMessage.parse buf = some (.error (.NotEnoughBytes buf.length)) := by
  unfold FastMessage.parse check_buffer_size
  rw [if_pos h]

/-- A buffer with a parseable header but an incomplete payload parses to
`NotEnoughBytes` carrying the buffer length. -/
theorem parse_payload_short (buf : List Nat) (header : FastMessageHeader)
    (hh : parse_header buf = some (.ok header)) (h15 : FP_HEADER_SZ ≤ buf.length)
    (hshort : buf.length < FP_HEADER_SZ + header.data_len) :
    FastMessage.parse buf = some (.error (.NotEnoughBytes buf.length)) := by
  have hge : ¬ buf.length < FP_HEADER_SZ := by omega
  simp [FastMessage.parse, check_buffer_size, validate_data_length, hh, hge, hshort]

/-! The parser never inspects the version byte at offset 0. -/

theorem check_buffer_size_cons (v w : Nat) (r : List Nat) :
    check_buffer_size (v :: r) = check_buffer_size (w :: r) := by
  simp [check_buffer_size]

theorem parse_header_cons_version (v w : Nat) (r : List Nat) :
    parse_header (v :: r) = parse_header (w :: r) := by
  unfold parse_header
  simp only [FP_OFF_TYPE, FP_OFF_STATUS, FP_OFF_MSGID, FP_OFF_CRC, FP_OFF_DATALEN,
    List.getElem?_cons_succ, slice?, List.length_cons, List.drop_succ_cons]

/-- Parsing ignores the version byte: replacing offset 0 never changes the
result. -/
theorem parse_cons_version (v w : Nat) (r : List Nat) :
    FastMessage.parse (v :: r) = FastMessage.parse (w :: r) := by
  unfold FastMessage.parse
  rw [check_buffer_size_cons v w r, parse_header_cons_version v w r]
  cases check_buffer_size (w :: r) with
  | error e => rfl
  | ok u =>
    cases parse_header (w :: r) with
    | none => rfl
    | some hr =>
      cases hr with
      | error e => rfl
      | ok header =>
        have hv : validate_data_length (v :: r) header.data_len =
            validate_data_length (w :: r) header.data_len := by
          simp [validate_data_length]
        have hs : slice? (v :: r) FP_OFF_DATA (FP_OFF_DATA + header.data_len) =
            slice? (w :: r) FP_OFF_DATA (FP_OFF_DATA + header.data_len) := by
          simp only [slice?, List.length_cons, FP_OFF_DATA, List.drop_succ_cons]
        simp only [hv, hs]

/-! Corrupted-payload frames: parse stops at the CRC check. -/

theorem parse_frame_crc_mismatch (v : Nat) (mt : FastMessageType) (st : FastMessageStatus)
    (i c : Nat) (P Q rest : List Nat)
    (hi : i < 2 ^ 32) (hc : c < 2 ^ 32) (hPlen : P.length < 2 ^ 32)
    (hQlen : Q.length = P.length) (hcrc : c ≠ crc16 Q) :
    FastMessage.parse (v :: mt.to_u8 :: st.to_u8 ::
        (be32 i ++ (be32 c ++ (be32 P.length ++ (Q ++ rest))))) =
      some (.error (.IOError crcErrMsg)) := by
  have hlenB : (v :: mt.to_u8 :: st.to_u8 ::
      (be32 i ++ (be32 c ++ (be32 P.length ++ (Q ++ rest))))).length =
      15 + Q.length + rest.length := by
    simp [be32]
    omega
  have h1 : check_buffer_size (v :: mt.to_u8 :: st.to_u8 ::
      (be32 i ++ (be32 c ++ (be32 P.length ++ (Q ++ rest))))) = .ok () := by
    unfold check_buffer_size
    rw [if_neg (by rw [hlenB]; simp only [FP_HEADER_SZ, FP_OFF_DATA]; omega)]
  have hsl1 : slice? (v :: mt.to_u8 :: st.to_u8 ::
      (be32 i ++ (be32 c ++ (be32 P.length ++ (Q ++ rest)))))
      FP_OFF_MSGID (FP_OFF_MSGID + 4) = some (be32 i) :=
    slice?_exact [v, mt.to_u8, st.to_u8] (be32 i)
      (be32 c ++ (be32 P.length ++ (Q ++ rest))) FP_OFF_MSGID (FP_OFF_MSGID + 4) rfl rfl
  have hsl2 : slice? (v :: mt.to_u8 :: st.to_u8 ::
      (be32 i ++ (be32 c ++ (be32 P.length ++ (Q ++ rest)))))
      FP_OFF_CRC (FP_OFF_CRC + 4) = some (be32 c) :=
    slice?_exact (v :: mt.to_u8 :: st.to_u8 :: be32 i) (be32 c)
      (be32 P.length ++ (Q ++ rest)) FP_OFF_CRC (FP_OFF_CRC + 4) rfl rfl
  have hsl3 : slice? (v :: mt.to_u8 :: st.to_u8 ::
      (be32 i ++ (be32 c ++ (be32 P.length ++ (Q ++ rest)))))
      FP_OFF_DATALEN (FP_OFF_DATALEN + 4) = some (be32 P.length) :=
    slice?_exact (v :: mt.to_u8 :: st.to_u8 :: (be32 i ++ be32 c)) (be32 P.length)
      (Q ++ rest) FP_OFF_DATALEN (FP_OFF_DATALEN + 4) rfl rfl
  have h2 : parse_header (v :: mt.to_u8 :: st.to_u8 ::
      (be32 i ++ (be32 c ++ (be32 P.length ++ (Q ++ rest))))) =
      some (.ok ⟨mt, st, i, c, P.length⟩) := by
    unfold parse_header
    rw [show (v :: mt.to_u8 :: st.to_u8 ::
      (be32 i ++ (be32 c ++ (be32 P.length ++ (Q ++ rest)))))[FP_OFF_TYPE]? =
      some mt.to_u8 by simp [FP_OFF_TYPE]]
    rw [show (v :: mt.to_u8 :: st.to_u8 ::
      (be32 i ++ (be32 c ++ (be32 P.length ++ (Q ++ rest)))))[FP_OFF_STATUS]? =
      some st.to_u8 by simp [FP_OFF_STATUS]]
    simp only [type_from_to, status_from_to, hsl1, hsl2, hsl3,
      readBe32_be32 i hi, readBe32_be32 _ hc, readBe32_be32 _ hPlen]
  have h3 : validate_data_length (v :: mt.to_u8 :: st.to_u8 ::
      (be32 i ++ (be32 c ++ (be32 P.length ++ (Q ++ rest))))) P.length = .ok () := by
    unfold validate_data_length
    rw [if_neg (by rw [hlenB]; simp only [FP_HEADER_SZ, FP_OFF_DATA]; omega)]
  have h4 : slice? (v :: mt.to_u8 :: st.to_u8 ::
      (be32 i ++ (be32 c ++ (be32 P.length ++ (Q ++ rest)))))
      FP_OFF_DATA (FP_OFF_DATA + P.length) = some Q := by
    have h := slice?_exact (v :: mt.to_u8 :: st.to_u8 :: (be32 i ++ (be32 c ++ be32 P.length)))
      Q rest FP_OFF_DATA (FP_OFF_DATA + P.length) rfl
      (by rw [hQlen]
          simp only [FP_OFF_DATA, be32, List.length_cons, List.length_append, List.length_nil]
          try omega)
    have heq : (v :: mt.to_u8 :: st.to_u8 ::
        (be32 i ++ (be32 c ++ be32 P.length))) ++ (Q ++ rest) =
        v :: mt.to_u8 :: st.to_u8 ::
        (be32 i ++ (be32 c ++ (be32 P.length ++ (Q ++ rest)))) := by
      simp [List.cons_append, List.append_assoc]
    rw [heq] at h
    exact h
  have h5 : validate_crc Q c = .error (.IOError crcErrMsg) := by
    unfold validate_crc
    rw [if_pos hcrc]
  simp only [FastMessage.parse, h1, h2, h3, h4, h5]

theorem set_decomp : ∀ (p : List Nat) (i x : Nat), i < p.length →
    p.set i x = p.take i ++ x :: p.drop (i + 1)
  | a :: t, 0, x, _ => by simp
  | a :: t, i+1, x, h => by
    have ht : i < t.length := by simpa using h
    simp [List.set, set_decomp t i x ht]

theorem getD_decomp : ∀ (p : List Nat) (i : Nat), i < p.length →
    p = p.take i ++ p.getD i 0 :: p.drop (i + 1)
  | a :: t, 0, _ => by simp
  | a :: t, i+1, h => by
    have ht : i < t.length := by simpa using h
    have := getD_decomp t i ht
    simp only [List.take_succ_cons, List.getD_cons_succ, List.drop_succ_cons,
      List.cons_append]
    exact congrArg (a :: ·) this

/-- Flipping bit `j` of payload byte `i` always changes the CRC-16/ARC of
the payload. -/
theorem crc16_flip_ne (p : List Nat) (i j : Nat) (hi : i < p.length) (hj : j < 8) :
    crc16 (p.set i ((p.getD i 0) ^^^ 2 ^ j)) ≠ crc16 p := by
  have hd0 : (2 : Nat) ^ j ≠ 0 := by positivity
  have hdlt : (2 : Nat) ^ j < 2 ^ 16 := by
    have : (2 : Nat) ^ j < 2 ^ 16 := Nat.pow_lt_pow_right (by norm_num) (by omega)
    exact this
  have hset := set_decomp p i ((p.getD i 0) ^^^ 2 ^ j) hi
  have hgetd := getD_decomp p i hi
  rw [hset]
  conv_rhs => rw [hgetd]
  exact crc16_change_byte_ne (p.take i) (p.drop (i + 1)) (p.getD i 0) (2 ^ j) hd0 hdlt

/-! The message id allocator. -/

theorem idAfter_eq (n : Nat) : FastMessageId.idAfter n = n % (2 ^ 64 - 2) := by
  induction n with
  | zero => rfl
  | succ n ih =>
    show (FastMessageId.next (FastMessageId.idAfter n)).2 = (n + 1) % (2 ^ 64 - 2)
    rw [ih]
    unfold FastMessageId.next usizeMax
    simp only []
    omega

/-! The server response engine. -/

theorem respond_append (h : FastMessage → Except (List Nat) (List FastMessage)) (uts : Nat)
    (a b : List FastMessage) :
    respond h uts (a ++ b) = respond h uts a ++ respond h uts b := by
  induction a with
  | nil => simp [respond]
  | cons m a ih => simp [respond, ih]

/-! The client receive path on an END frame. -/

theorem pahm_end (h : FastMessage → Except String Unit) (fuel : Nat) (read_buf : List Nat)
    (offset : Nat) (result : Except String BufferAction) (fm : FastMessage)
    (hparse : FastMessage.parse (read_buf.drop offset) = some (.ok fm))
    (hst : fm.status = .End) :
    pahm h (fuel + 1) read_buf offset result = (.ok BufferAction.Done, []) := by
  simp [pahm, hparse, hst]

theorem receive_end (h : FastMessage → Except String Unit) (chunk : List Nat)
    (fm : FastMessage) (hne : chunk ≠ []) (hp : FastMessage.parse chunk = some (.ok fm))
    (hst : fm.status = .End) :
    receive h [chunk] = some (.ok 0, []) := by
  unfold receive receiveLoop
  rw [if_neg (by simpa [List.isEmpty_iff] using hne)]
  have hpahm : parse_and_handle_messages h chunk = (.ok BufferAction.Done, []) := by
    unfold parse_and_handle_messages
    cases hl : chunk.length with
    | zero => exact absurd (List.length_eq_zero.mp hl) hne
    | succ n =>
      exact pahm_end h (n + 1) chunk 0 (.ok BufferAction.Keep) fm (by simpa using hp) hst
  simp [hpahm]

/-! The streaming decoder on a sequence of well-formed frames. -/

/-- Concatenated encoding of a list of messages, as `FastRpc::encode`
produces (each message appended to the buffer in order). -/
def FastRpc.encode : List FastMessage → List Nat
  | [] => []
  | m :: ms => encode_msg m ++ FastRpc.encode ms

/-- The message `FastMessage::parse` reconstructs from the encoding of `M`:
identical to `M` except that `msg_size` is set per status. -/
def reparse (M : FastMessage) : FastMessage :=
  ⟨M.msg_type, M.status, M.id, msgSizeOf M, M.data⟩

/-- Acceptable trailing bytes for the splitter: nothing, or an incomplete
frame. -/
def tailOk (tail : List Nat) : Prop :=
  tail = [] ∨ ∃ n, FastMessage.parse tail = some (.error (.NotEnoughBytes n))

theorem encode_msg_length (M : FastMessage) :
    (encode_msg M).length = 15 + (serData M.data).length := by
  simp [encode_msg, be32]
  omega

theorem encode_msg_ne_nil (M : FastMessage) : encode_msg M ≠ [] := by
  unfold encode_msg
  simp

theorem decodeCore_frames (msgs : List FastMessage) (tail : List Nat)
    (hWF : ∀ m ∈ msgs, MsgWF m) (htail : tailOk tail) :
    ∀ fuel, (FastRpc.encode msgs ++ tail).length + 1 ≤ fuel →
      decodeCore fuel (FastRpc.encode msgs ++ tail) =
        some (.ok (msgs.map reparse, tail)) := by
  induction msgs with
  | nil =>
    intro fuel hfuel
    cases fuel with
    | zero => omega
    | succ f =>
      rw [show FastRpc.encode [] ++ tail = tail from by simp [FastRpc.encode]]
      by_cases hemp : tail.isEmpty = true
      · have : tail = [] := by simpa [List.isEmpty_iff] using hemp
        subst this
        simp [decodeCore]
      · rcases htail with rfl | ⟨n, hn⟩
        · simp at hemp
        · simp [decodeCore, hemp, hn]
  | cons m ms ih =>
    intro fuel hfuel
    have hm : MsgWF m := hWF m (by simp)
    have hms : ∀ x ∈ ms, MsgWF x := fun x hx => hWF x (by simp [hx])
    have hbuf : FastRpc.encode (m :: ms) ++ tail =
        encode_msg m ++ (FastRpc.encode ms ++ tail) := by
      simp [FastRpc.encode, List.append_assoc]
    have hlenfacts : (FastRpc.encode (m :: ms) ++ tail).length =
        (encode_msg m).length + (FastRpc.encode ms ++ tail).length := by
      rw [hbuf]
      simp [List.length_append]
    have hencl := encode_msg_length m
    rw [hbuf] at hfuel ⊢
    cases fuel with
    | zero => omega
    | succ f =>
      have hne : (encode_msg m ++ (FastRpc.encode ms ++ tail)).isEmpty = false := by
        cases henc : encode_msg m with
        | nil => exact absurd henc (encode_msg_ne_nil m)
        | cons a t => simp [henc]
      have hparse := parse_encode_append m hm (FastRpc.encode ms ++ tail)
      have hadv : advance? (encode_msg m ++ (FastRpc.encode ms ++ tail))
          (FP_HEADER_SZ + (serData m.data).length) = some (FastRpc.encode ms ++ tail) := by
        unfold advance?
        have hlen2 : FP_HEADER_SZ + (serData m.data).length = (encode_msg m).length := by
          rw [hencl]
          simp [FP_HEADER_SZ, FP_OFF_DATA]
        rw [hlen2, if_pos (by simp only [List.length_append]; omega)]
        rw [List.drop_left]
      have hrec := ih hms f (by rw [hbuf] at hlenfacts; omega)
      simp [decodeCore, hne, hparse, hadv, hrec, reparse]

/-- The splitter on a sequence of well-formed complete frames followed by an
acceptable tail: it yields exactly the re-parsed frames in order and leaves
the tail in the buffer. -/
theorem decode_frames (msgs : List FastMessage) (tail : List Nat)
    (hWF : ∀ m ∈ msgs, MsgWF m) (htail : tailOk tail) :
    FastRpc.decode (FastRpc.encode msgs ++ tail) =
      some (.ok ((if msgs.isEmpty then none else some (msgs.map reparse)), tail)) := by
  unfold FastRpc.decode
  rw [decodeCore_frames msgs tail hWF htail _ le_rfl]
  cases msgs with
  | nil => simp
  | cons m ms => simp

/-! Concrete instances used by witnesses and counterexamples. -/

/-- Sample DATA message: id 7, method name the single byte string `a`,
empty argument array, timestamp 0. -/
def sampleDataMsg : FastMessage := ⟨.Json, .Data, 7, none, ⟨⟨0, [97]⟩, Json.arr []⟩⟩

/-- Sample END message built by `FastMessage::end`. -/
def sampleEndMsg : FastMessage := FastMessage.end_msg 0 7 [97]

/-- Sample END message carrying a non-empty payload array. -/
def sampleEndPayloadMsg : FastMessage := ⟨.Json, .End, 7, none, ⟨⟨0, [97]⟩, Json.arr [Json.num 1]⟩⟩

/-- A syntactically valid frame whose JSON payload carries one trailing
whitespace byte: the payload re-serializes one byte shorter than its
on-wire length of 34. -/
def noncanonPayload : List Nat :=
  [123,34,109,34,58,123,34,117,116,115,34,58,48,44,34,110,97,109,101,34,58,34,97,34,
   125,44,34,100,34,58,91,93,125,32]

/-- The frame around `noncanonPayload`, with correct CRC and length. -/
def noncanonFrame : List Nat :=
  2 :: 1 :: 1 :: (be32 7 ++ be32 (crc16 noncanonPayload) ++ be32 34 ++ noncanonPayload)

/-- A response callback that always succeeds. -/
def okHandler : FastMessage → Except String Unit := fun _ => .ok ()

/-- A server handler that always fails with the byte string `boom`. -/
def errHandler : FastMessage → Except (List Nat) (List FastMessage) :=
  fun _ => .error (strBytes "boom")

/-- A server handler that returns a single DATA response. -/
def okRespHandler : FastMessage → Except (List Nat) (List FastMessage) :=
  fun _ => .ok [sampleDataMsg]

/-! Claim theorems. -/

/-- C1 (counterexample): for an END message the claim fails: parsing its
encoding yields `msg_size = none`, not
`some (15 + payload length)` (which would be `some 48` here). -/
theorem C1_counterexample :
    FastMessage.parse (encode_msg sampleEndMsg) =
      some (.ok ⟨.Json, .End, 7, none, ⟨⟨0, [97]⟩, Json.arr []⟩⟩) ∧
    FP_HEADER_SZ + (serData sampleEndMsg.data).length = 48 ∧
    (none : Option Nat) ≠ some 48 := by
  refine ⟨by decide, by decide, by decide⟩

/-- C1 (amended): for every well-formed message M, parsing the encoding of
M yields a message equal to M in type, status, id and payload (`m.name`,
`m.uts` and `d`), and the parsed `msg_size` equals
`15 + length of the encoded payload` for DATA and ERROR statuses but is
`none` for END status. -/
theorem C1_roundtrip_amended (M : FastMessage) (hWF : MsgWF M) :
    FastMessage.parse (encode_msg M) = some (.ok (reparse M)) ∧
    (reparse M).msg_type = M.msg_type ∧
    (reparse M).status = M.status ∧
    (reparse M).id = M.id ∧
    (reparse M).data = M.data ∧
    (M.status ≠ .End →
      (reparse M).msg_size = some (FP_HEADER_SZ + (serData M.data).length)) ∧
    (M.status = .End → (reparse M).msg_size = none) := by
  refine ⟨?_, rfl, rfl, rfl, rfl, ?_, ?_⟩
  · have h := parse_encode_append M hWF []
    rw [List.append_nil] at h
    exact h
  · intro hne
    cases hst : M.status with
    | End => exact absurd hst hne
    | Data => simp [reparse, msgSizeOf, hst, FP_HEADER_SZ, FP_OFF_DATA]
    | Error => simp [reparse, msgSizeOf, hst, FP_HEADER_SZ, FP_OFF_DATA]
  · intro hst
    simp [reparse, msgSizeOf, hst]

/-- C1 witness at the sample DATA message. -/
theorem C1_roundtrip_amended_witness :
    FastMessage.parse (encode_msg sampleDataMsg) = some (.ok (reparse sampleDataMsg)) :=
  (C1_roundtrip_amended sampleDataMsg (by decide)).1

/-- C2 (counterexample): the encoder writes version byte 2, not 1, and the
parser accepts a frame whose version byte is 255 rather than failing. -/
theorem C2_counterexample :
    (encode_msg sampleDataMsg).head? = some 2 ∧
    some (2 : Nat) ≠ some 1 ∧
    FastMessage.parse (255 :: (encode_msg sampleDataMsg).tail) =
      some (.ok (reparse sampleDataMsg)) := by
  refine ⟨by decide, by decide, by decide⟩

/-- C2 (amended): every frame produced by the encoder has version byte
`FP_VERSION_CURRENT = 2` at offset 0, and the parser never inspects the
version byte: replacing offset 0 by any value yields the same parse
result on every input buffer. -/
theorem C2_version_amended :
    (∀ M : FastMessage, (encode_msg M).head? = some FP_VERSION_CURRENT) ∧
    (∀ (v w : Nat) (rest : List Nat),
      FastMessage.parse (v :: rest) = FastMessage.parse (w :: rest)) ∧
    FP_VERSION_CURRENT = 2 := by
  refine ⟨?_, parse_cons_version, rfl⟩
  intro M
  rfl

/-- C3 (counterexample): after `2 ^ 31` calls the allocator state is
`2 ^ 31`, which is neither the claimed `(2 ^ 31) % (2 ^ 31 - 1) = 1` nor
within the 31-bit space. -/
theorem C3_counterexample :
    FastMessageId.idAfter (2 ^ 31) = 2 ^ 31 ∧
    (2 ^ 31 : Nat) % (2 ^ 31 - 1) = 1 ∧
    (2 ^ 31 : Nat) ≠ 1 ∧
    ¬ (2 ^ 31 : Nat) < 2 ^ 31 := by
  refine ⟨?_, by norm_num, by norm_num, by norm_num⟩
  rw [idAfter_eq]
  norm_num

/-- C3 (amended): the allocator starts at 0, each `next` returns the
current value and advances the state to
`(current + 1) % (usize::MAX - 1) = (current + 1) % (2 ^ 64 - 2)`
(64-bit target), and after `n` calls the state is `n % (2 ^ 64 - 2)`;
the id space is the full 64-bit `usize` space, not 31 bits. -/
theorem C3_allocator_amended :
    FastMessageId.new = 0 ∧
    (∀ s : Nat, FastMessageId.next s = (s, (s + 1) % (2 ^ 64 - 2))) ∧
    (∀ n : Nat, FastMessageId.idAfter n = n % (2 ^ 64 - 2)) := by
  refine ⟨rfl, ?_, idAfter_eq⟩
  intro s
  unfold FastMessageId.next usizeMax
  norm_num

/-- C4 (counterexample): an END frame carrying a non-empty payload
(`d = [1]`) is decoded, `receive` exits successfully, but the callback
trace is empty: the payload is never delivered to the callback. -/
theorem C4_counterexample :
    FastMessage.parse (encode_msg sampleEndPayloadMsg) =
      some (.ok ⟨.Json, .End, 7, none, ⟨⟨0, [97]⟩, Json.arr [Json.num 1]⟩⟩) ∧
    receive okHandler [encode_msg sampleEndPayloadMsg] = some (.ok 0, []) := by
  refine ⟨by decide, by decide⟩

/-- C4 (amended): when the message-handling loop decodes a frame with
status END it immediately returns `Done` without invoking the callback
(empty delivery trace), and `receive` then exits successfully; END's
payload is dropped, not delivered. -/
theorem C4_end_amended (h : FastMessage → Except String Unit) (fuel : Nat)
    (read_buf : List Nat) (offset : Nat) (result : Except String BufferAction)
    (fm : FastMessage) (chunk : List Nat) :
    (FastMessage.parse (read_buf.drop offset) = some (.ok fm) → fm.status = .End →
      pahm h (fuel + 1) read_buf offset result = (.ok BufferAction.Done, [])) ∧
    (chunk ≠ [] → FastMessage.parse chunk = some (.ok fm) → fm.status = .End →
      receive h [chunk] = some (.ok 0, [])) :=
  ⟨fun hp hst => pahm_end h fuel read_buf offset result fm hp hst,
   fun hne hp hst => receive_end h chunk fm hne hp hst⟩

/-- C4 witness: receiving a single well-formed END frame. -/
theorem C4_end_amended_witness :
    receive okHandler [encode_msg sampleEndMsg] = some (.ok 0, []) :=
  (C4_end_amended okHandler 0 [] 0 (.ok BufferAction.Keep) (reparse sampleEndMsg)
    (encode_msg sampleEndMsg)).2 (by decide) (by decide) (by decide)

/-- C5 (counterexample): a buffer holding exactly one complete 49-byte
frame (the parser reports `msg_size = 49`) from which the decoder should
consume everything; instead the decoder advances by the re-serialized
payload length and leaves one byte behind. -/
theorem C5_counterexample :
    FastRpc.decode noncanonFrame =
      some (.ok (some [⟨.Json, .Data, 7, some 49, ⟨⟨0, [97]⟩, Json.arr []⟩⟩], [32])) ∧
    noncanonFrame.length = 49 ∧
    ([32] : List Nat) ≠ [] := by
  refine ⟨by decide, by decide, by decide⟩

/-- C5 (amended): the decoder advances by `FP_HEADER_SZ` plus the length of
the re-serialized payload of each parsed message, which coincides with the
on-wire size exactly for canonically encoded frames; hence for every
sequence of well-formed encoder-produced frames followed by an incomplete
tail it yields exactly those frames, in order, and leaves the tail in the
buffer. -/
theorem C5_decode_amended (msgs : List FastMessage) (tail : List Nat)
    (hWF : ∀ m ∈ msgs, MsgWF m) (htail : tailOk tail) :
    FastRpc.decode (FastRpc.encode msgs ++ tail) =
      some (.ok ((if msgs.isEmpty then none else some (msgs.map reparse)), tail)) :=
  decode_frames msgs tail hWF htail

/-- C5 witness: one encoded frame plus a one-byte tail. -/
theorem C5_decode_amended_witness :
    FastRpc.decode (FastRpc.encode [sampleDataMsg] ++ [2]) =
      some (.ok (some [reparse sampleDataMsg], [2])) := by
  have h := C5_decode_amended [sampleDataMsg] [2] (by decide) (Or.inr ⟨1, by decide⟩)
  simpa using h

/-- C6: if the handler fails on request R with error E, the engine emits
exactly one frame for R: status ERROR, same id, the request's method name,
and payload object `name = FastError, message = E`; no END frame is
emitted for R. -/
theorem C6_handler_error (h : FastMessage → Except (List Nat) (List FastMessage))
    (uts : Nat) (pre post : List FastMessage) (R : FastMessage) (E : List Nat)
    (hE : h R = .error E) :
    respond h uts (pre ++ R :: post) =
      respond h uts pre ++
        [FastMessage.error_msg R.id (FastMessageData.new uts R.data.m.name (fastErrorObj E))] ++
        respond h uts post ∧
    (FastMessage.error_msg R.id
      (FastMessageData.new uts R.data.m.name (fastErrorObj E))).status = .Error ∧
    (FastMessage.error_msg R.id
      (FastMessageData.new uts R.data.m.name (fastErrorObj E))).id = R.id ∧
    (FastMessage.error_msg R.id
      (FastMessageData.new uts R.data.m.name (fastErrorObj E))).data.m.name = R.data.m.name ∧
    (FastMessage.error_msg R.id
      (FastMessageData.new uts R.data.m.name (fastErrorObj E))).data.d =
      Json.obj [([110, 97, 109, 101], Json.str (strBytes "FastError")),
        ([109, 101, 115, 115, 97, 103, 101], Json.str E)] ∧
    (FastMessage.error_msg R.id
      (FastMessageData.new uts R.data.m.name (fastErrorObj E))).status ≠ .End := by
  refine ⟨?_, rfl, rfl, rfl, rfl, by simp [FastMessage.error_msg]⟩
  rw [respond_append]
  simp [respond, respondOne, hE, List.append_assoc]

/-- C6 witness: a handler that always fails, one request. -/
theorem C6_handler_error_witness :
    respond errHandler 0 [sampleDataMsg] =
      [FastMessage.error_msg 7 (FastMessageData.new 0 [97] (fastErrorObj (strBytes "boom")))] := by
  have h := (C6_handler_error errHandler 0 [] [] sampleDataMsg (strBytes "boom") (by decide)).1
  simpa [respond] using h

/-- C7: if the handler succeeds on request R with response list `resp`, the
engine appends exactly one synthesized END frame after them — same id,
the request's method name in `m.name`, empty array in `d` — and the
concatenated list is emitted in that order. -/
theorem C7_handler_ok (h : FastMessage → Except (List Nat) (List FastMessage))
    (uts : Nat) (pre post : List FastMessage) (R : FastMessage) (resp : List FastMessage)
    (hR : h R = .ok resp) :
    respond h uts (pre ++ R :: post) =
      respond h uts pre ++ (resp ++ [FastMessage.end_msg uts R.id R.data.m.name]) ++
        respond h uts post ∧
    (FastMessage.end_msg uts R.id R.data.m.name).status = .End ∧
    (FastMessage.end_msg uts R.id R.data.m.name).id = R.id ∧
    (FastMessage.end_msg uts R.id R.data.m.name).data.m.name = R.data.m.name ∧
    (FastMessage.end_msg uts R.id R.data.m.name).data.d = Json.arr [] := by
  refine ⟨?_, rfl, rfl, rfl, rfl⟩
  rw [respond_append]
  simp [respond, respondOne, hR, List.append_assoc]

/-- C7 witness: a handler returning one DATA message, one request. -/
theorem C7_handler_ok_witness :
    respond okRespHandler 0 [sampleDataMsg] =
      [sampleDataMsg, FastMessage.end_msg 0 7 [97]] := by
  have h := (C7_handler_ok okRespHandler 0 [] [] sampleDataMsg [sampleDataMsg] (by decide)).1
  simpa [respond] using h

/-- C8 (counterexample): an empty buffer returns `NeedMore`, but extending
it with 15 zero bytes yields a Malformed error (unrecognized type byte),
which is neither success nor `NeedMore`. -/
theorem C8_counterexample :
    FastMessage.parse [] = some (.error (.NotEnoughBytes 0)) ∧
    FastMessage.parse ([] ++ List.replicate 15 0) = some (.error (.IOError typeErrMsg)) ∧
    FastParseError.IOError typeErrMsg ≠ FastParseError.NotEnoughBytes 15 := by
  refine ⟨by decide, by decide, by decide⟩

/-- C8 (amended): parse returns `NeedMore(buffer length)` when the buffer
is shorter than a header, and when the header parses but the payload is
incomplete; `NeedMore` is a constructor distinct from the `IOError` forms
(Malformed / ChecksumMismatch); and parse on an extended buffer either
succeeds, returns `NeedMore` again, or fails with a Malformed or
ChecksumMismatch error (the extension can reveal a malformed frame). -/
theorem C8_needmore_amended :
    (∀ buf : List Nat, buf.length < FP_HEADER_SZ →
      FastMessage.parse buf = some (.error (.NotEnoughBytes buf.length))) ∧
    (∀ (buf : List Nat) (header : FastMessageHeader),
      parse_header buf = some (.ok header) → FP_HEADER_SZ ≤ buf.length →
      buf.length < FP_HEADER_SZ + header.data_len →
      FastMessage.parse buf = some (.error (.NotEnoughBytes buf.length))) ∧
    (∀ (n : Nat) (s : String),
      FastParseError.NotEnoughBytes n ≠ FastParseError.IOError s) ∧
    (∀ buf more : List Nat,
      (∃ n, FastMessage.parse buf = some (.error (.NotEnoughBytes n))) →
      (∃ m, FastMessage.parse (buf ++ more) = some (.ok m)) ∨
      (∃ k, FastMessage.parse (buf ++ more) = some (.error (.NotEnoughBytes k))) ∨
      (∃ s, FastMessage.parse (buf ++ more) = some (.error (.IOError s)))) := by
  refine ⟨parse_short, parse_payload_short, ?_, ?_⟩
  · intro n s hc
    cases hc
  · intro buf more _hn
    cases hp : FastMessage.parse (buf ++ more) with
    | none =>
      have htot := parse_isSome (buf ++ more)
      rw [hp] at htot
      simp at htot
    | some r =>
      cases r with
      | ok m => exact Or.inl ⟨m, rfl⟩
      | error e =>
        cases e with
        | NotEnoughBytes k => exact Or.inr (Or.inl ⟨k, rfl⟩)
        | IOError s => exact Or.inr (Or.inr ⟨s, rfl⟩)

/-- C8 witness: a two-byte buffer returns `NeedMore(1)`. -/
theorem C8_needmore_amended_witness :
    FastMessage.parse [2] = some (.error (.NotEnoughBytes ([2] : List Nat).length)) :=
  C8_needmore_amended.1 [2] (by decide)

/-- C9: flipping bit `j` of payload byte `i` of a well-formed encoding
makes parse fail with the checksum-mismatch error, and `validate_crc`
fails exactly when the header `crc` differs from the CRC-16/ARC of the
payload bytes. -/
theorem C9_crc_flip (M : FastMessage) (hWF : MsgWF M) (i j : Nat)
    (hi : i < (serData M.data).length) (hj : j < 8) :
    FastMessage.parse (FP_VERSION_CURRENT :: M.msg_type.to_u8 :: M.status.to_u8 ::
        (be32 M.id ++ (be32 (crc16 (serData M.data)) ++ (be32 (serData M.data).length ++
          (serData M.data).set i (((serData M.data).getD i 0) ^^^ 2 ^ j))))) =
      some (.error (.IOError crcErrMsg)) ∧
    encode_msg M = FP_VERSION_CURRENT :: M.msg_type.to_u8 :: M.status.to_u8 ::
        (be32 M.id ++ (be32 (crc16 (serData M.data)) ++ (be32 (serData M.data).length ++
          serData M.data))) ∧
    (∀ (data_buf : List Nat) (c : Nat),
      validate_crc data_buf c = .error (.IOError crcErrMsg) ↔ c ≠ crc16 data_buf) := by
  obtain ⟨hid, hdwf, hplen⟩ := hWF
  refine ⟨?_, ?_, ?_⟩
  · have hc32 : crc16 (serData M.data) < 2 ^ 32 := by
      have h16 := crc16_lt (serData M.data) (serData_bytes M.data hdwf)
      omega
    have hne := (crc16_flip_ne (serData M.data) i j hi hj).symm
    have h := parse_frame_crc_mismatch FP_VERSION_CURRENT M.msg_type M.status M.id
      (crc16 (serData M.data)) (serData M.data)
      ((serData M.data).set i (((serData M.data).getD i 0) ^^^ 2 ^ j)) []
      hid hc32 hplen (by simp) hne
    rw [List.append_nil] at h
    exact h
  · rfl
  · intro data_buf c
    unfold validate_crc
    by_cases hc : c ≠ crc16 data_buf
    · simp [hc]
    · simp [hc]

/-- C9 witness: flipping bit 0 of payload byte 0 of the sample DATA
message's encoding. -/
theorem C9_crc_flip_witness :
    FastMessage.parse (FP_VERSION_CURRENT ::
        sampleDataMsg.msg_type.to_u8 :: sampleDataMsg.status.to_u8 ::
        (be32 sampleDataMsg.id ++ (be32 (crc16 (serData sampleDataMsg.data)) ++
          (be32 (serData sampleDataMsg.data).length ++
          (serData sampleDataMsg.data).set 0
            (((serData sampleDataMsg.data).getD 0 0) ^^^ 2 ^ 0))))) =
      some (.error (.IOError crcErrMsg)) :=
  (C9_crc_flip sampleDataMsg (by decide) 0 0 (by decide) (by decide)).1

/-- C10: `FastMessage::parse` is total on arbitrary input: the panic layer
of the model is never reached, because the 15-byte check precedes the
header accesses and the payload-length check precedes the payload slice. -/
theorem C10_parse_total : ∀ buf : List Nat, (FastMessage.parse buf).isSome = true :=
  parse_isSome

end Fast
